import Mathlib

/-!
Verification of the rox interpreter (a restricted Lox dialect): lexer,
recursive-descent parser and tree-walking evaluator.

The embedding follows the Rust sources file by file:
* `src/token.rs`    — `TokenType`, `Token`
* `src/expr.rs`     — `Expr`, `LiteralValue`
* `src/statement.rs`— `Stmt`
* `src/scanner.rs`  — `Scanner` and its scanning functions
* `src/parser.rs`   — `Parser` and the precedence-climbing grammar
* `src/interpreter.rs`, `src/interpreter/environment.rs` — `Environment`,
  `evaluate`, `execute`, `interpret`

Numbers are 32-bit floats (`f32`) in the source.  IEEE-754 arithmetic is
outside the shallow embedding, so every definition is parametric in the
number payload type `α` together with a record `NumOps α` supplying the
arithmetic and comparison operations the evaluator applies and the
float-to-string rendering (`to_string`).  The theorems therefore hold for
every interpretation of the `f32` operations, in particular the IEEE one.

Rust `panic!`/`expect`/out-of-bounds indexing is modelled as a dedicated
`crashed` error constructor, distinct from ordinary `Result::Err` values,
and the scanner's loops take explicit fuel because one of them (the string
lexer) does not terminate on some inputs.
-/

/-- Operations on the number payload type, abstracting Rust `f32`.
`beq`, `lt`, … model `==`, `<`, … on `f32`; `zero` models the literal
`0.0`; `toStr` models `f32::to_string` (the platform float-to-string
conversion). -/
structure NumOps (α : Type) where
  add : α → α → α
  sub : α → α → α
  mul : α → α → α
  div : α → α → α
  neg : α → α
  beq : α → α → Bool
  lt : α → α → Bool
  le : α → α → Bool
  gt : α → α → Bool
  ge : α → α → Bool
  zero : α
  toStr : α → String

/-- `TokenType` from src/token.rs (the source spells `Identifer`). -/
inductive TokenType (α : Type) where
  | leftParen
  | rightParen
  | leftBrace
  | rightBrace
  | comma
  | dot
  | minus
  | plus
  | colon
  | semicolon
  | slash
  | star
  | bang
  | bangEqual
  | equal
  | equalEqual
  | greater
  | greaterEqual
  | less
  | lessEqual
  | identifer (s : String)
  | string (s : String)
  | number (n : α)
  | and
  | class_
  | else_
  | false_
  | fun_
  | for_
  | if_
  | nil
  | or
  | print
  | return_
  | super_
  | this_
  | true_
  | var
  | while_
  | eof
  | questionMark
deriving DecidableEq, Repr

/-- The derived `PartialEq` on `TokenType`: same constructor, with payload
comparison on the literal-carrying variants (`f32` equality via `N.beq`). -/
def tokenTypeEq (N : NumOps α) : TokenType α → TokenType α → Bool
  | .leftParen, .leftParen => true
  | .rightParen, .rightParen => true
  | .leftBrace, .leftBrace => true
  | .rightBrace, .rightBrace => true
  | .comma, .comma => true
  | .dot, .dot => true
  | .minus, .minus => true
  | .plus, .plus => true
  | .colon, .colon => true
  | .semicolon, .semicolon => true
  | .slash, .slash => true
  | .star, .star => true
  | .bang, .bang => true
  | .bangEqual, .bangEqual => true
  | .equal, .equal => true
  | .equalEqual, .equalEqual => true
  | .greater, .greater => true
  | .greaterEqual, .greaterEqual => true
  | .less, .less => true
  | .lessEqual, .lessEqual => true
  | .identifer a, .identifer b => a == b
  | .string a, .string b => a == b
  | .number a, .number b => N.beq a b
  | .and, .and => true
  | .class_, .class_ => true
  | .else_, .else_ => true
  | .false_, .false_ => true
  | .fun_, .fun_ => true
  | .for_, .for_ => true
  | .if_, .if_ => true
  | .nil, .nil => true
  | .or, .or => true
  | .print, .print => true
  | .return_, .return_ => true
  | .super_, .super_ => true
  | .this_, .this_ => true
  | .true_, .true_ => true
  | .var, .var => true
  | .while_, .while_ => true
  | .eof, .eof => true
  | .questionMark, .questionMark => true
  | _, _ => false

/-- The `Display` impl for `TokenType` in src/token.rs. -/
def TokenType.display (toS : α → String) : TokenType α → String
  | .leftParen => "("
  | .rightParen => ")"
  | .leftBrace => "\x7b"
  | .rightBrace => "\x7d"
  | .comma => ","
  | .dot => "."
  | .minus => "-"
  | .plus => "+"
  | .semicolon => ";"
  | .slash => "/"
  | .star => "*"
  | .bang => "!"
  | .bangEqual => "!="
  | .equal => "="
  | .equalEqual => "=="
  | .greater => ">"
  | .greaterEqual => ">="
  | .less => "<"
  | .lessEqual => "<="
  | .identifer s => s
  | .string s => s
  | .number n => toS n
  | .and => "and"
  | .class_ => "class"
  | .else_ => "else"
  | .false_ => "false"
  | .fun_ => "fun"
  | .for_ => "for"
  | .if_ => "if"
  | .nil => "nil"
  | .or => "or"
  | .print => "print"
  | .return_ => "return"
  | .super_ => "super"
  | .this_ => "this"
  | .true_ => "true"
  | .var => "var"
  | .while_ => "while"
  | .eof => "EOF"
  | .colon => ":"
  | .questionMark => "?"

/-- Modelled from the spec: `TokenType::get_identifier_value` is called by
the parser (`consume_identifier`) and by `Environment::get`/`assign` but its
definition is absent from the copy of src/token.rs; it extracts the name of
an `Identifer` token. -/
def TokenType.get_identifier_value : TokenType α → Option String
  | .identifer s => some s
  | _ => none

/-- `Token` from src/token.rs (`line` is a `u32`, modelled as `Nat`). -/
structure Token (α : Type) where
  tag : TokenType α
  line : Nat
deriving DecidableEq, Repr

/-- `LiteralValue` from src/expr.rs. -/
inductive LiteralValue (α : Type) where
  | true_
  | false_
  | nil
  | string (s : String)
  | number (n : α)
deriving DecidableEq, Repr

/-- `LiteralValue::is_truthy`: false only for `False` and `Nil`. -/
def LiteralValue.is_truthy : LiteralValue α → Bool
  | .false_ => false
  | .nil => false
  | _ => true

/-- `LiteralValue::is_number`: true only for `Number`. -/
def LiteralValue.is_number : LiteralValue α → Bool
  | .number _ => true
  | _ => false

/-- `From<bool> for LiteralValue`. -/
def LiteralValue.fromBool (b : Bool) : LiteralValue α :=
  if b then .true_ else .false_

/-- The derived `PartialEq` on `LiteralValue` (structural equality; number
payloads compared with `f32` equality `N.beq`, strings with `==`). -/
def litEq (N : NumOps α) : LiteralValue α → LiteralValue α → Bool
  | .true_, .true_ => true
  | .false_, .false_ => true
  | .nil, .nil => true
  | .string a, .string b => a == b
  | .number a, .number b => N.beq a b
  | _, _ => false

/-- The `Display` impl for `LiteralValue` in src/expr.rs. -/
def LiteralValue.display (toS : α → String) : LiteralValue α → String
  | .true_ => "true"
  | .false_ => "false"
  | .nil => "nil"
  | .string s => s
  | .number n => toS n

/-- `Expr` from src/expr.rs.  The `variable` and `assign` variants are
constructed by the parser (src/parser.rs) and consumed by the interpreter;
they are missing from the copy of src/expr.rs itself, so they are modelled
from the spec: `Variable(Token)` and `Assign { name: Token, value: Expr }`. -/
inductive Expr (α : Type) where
  | binary (left : Expr α) (operator : Token α) (right : Expr α)
  | grouping (expr : Expr α)
  | literal (v : LiteralValue α)
  | unary (operator : Token α) (operand : Expr α)
  | ternary (condition : Expr α) (true_expr : Expr α) (false_expr : Expr α)
  | variable (name : Token α)
  | assign (name : Token α) (value : Expr α)
deriving DecidableEq, Repr

/-- `Stmt` from src/statement.rs. -/
inductive Stmt (α : Type) where
  | expr (e : Expr α)
  | print (e : Expr α)
  | varDec (name : String) (initializer : Option (Expr α))
deriving DecidableEq, Repr

/-- Runtime outcome: `err` models `Result::Err(String)`, `crashed` models a
Rust panic (`expect`, `unreachable!`). -/
inductive RunErr where
  | err (msg : String)
  | crashed (msg : String)
deriving DecidableEq, Repr

/-- Association-list lookup, the model of `HashMap::get`. -/
def alistLookup (k : String) : List (String × β) → Option β
  | [] => none
  | (k', v) :: t => if k = k' then some v else alistLookup k t

/-- Association-list insert-or-replace, the model of `HashMap::insert`. -/
def alistInsert (k : String) (v : β) : List (String × β) → List (String × β)
  | [] => [(k, v)]
  | (k', v') :: t => if k = k' then (k, v) :: t else (k', v') :: alistInsert k v t

/-- `Environment` from src/interpreter/environment.rs: a flat name→value
store (`HashMap<String, LiteralValue>` modelled as an association list). -/
structure Environment (α : Type) where
  globals : List (String × LiteralValue α)
deriving DecidableEq, Repr

/-- `Environment::new`. -/
def Environment.new : Environment α := ⟨[]⟩

/-- `Environment::define`: unconditionally inserts/overwrites; an absent
value is stored as `Nil`. -/
def Environment.define (env : Environment α) (key : String)
    (value : Option (LiteralValue α)) : Environment α :=
  ⟨alistInsert key (value.getD .nil) env.globals⟩

/-- `Environment::get`: the `expect` on a non-identifier token is a panic
(`crashed`); an unbound name yields the undefined-variable `Err`. -/
def Environment.get (env : Environment α) (token : Token α) :
    Except RunErr (LiteralValue α) :=
  match token.tag.get_identifier_value with
  | none => .error (.crashed "expected identifier token")
  | some var_name =>
    match alistLookup var_name env.globals with
    | some v => .ok v
    | none => .error (.err
        ("[line " ++ toString token.line ++ "] Error: variable \x27" ++
          var_name ++ "\x27 is not defined"))

/-- `Environment::assign`: only overwrites an existing binding, returning
the assigned value (the mutated store is returned explicitly). -/
def Environment.assign (env : Environment α) (token : Token α)
    (value : LiteralValue α) : Except RunErr (LiteralValue α × Environment α) :=
  match token.tag.get_identifier_value with
  | none => .error (.crashed "expected identifier token")
  | some var_name =>
    if (alistLookup var_name env.globals).isSome then
      .ok (value, ⟨alistInsert var_name value env.globals⟩)
    else
      .error (.err
        ("[line " ++ toString token.line ++ "] Error: variable \x27" ++
          var_name ++ "\x27 is not defined"))

/-- The value-level match of `Interpreter::handle_binary_expression`
(src/interpreter.rs): the source function first evaluates both operands
(done at the call site in `evaluate` to keep the recursion structural) and
then matches on `(operator.tag, left value, right value)` exactly as below.
The two guarded catch-all arms of the Rust match are rendered as
`if`-chains in match-order; the final `unreachable!()` is a crash. -/
def handle_binary_expression (N : NumOps α) (tag : TokenType α)
    (lv rv : LiteralValue α) : Except RunErr (LiteralValue α) :=
  match tag, lv, rv with
  | .minus, .number l, .number r => .ok (.number (N.sub l r))
  | .slash, .number l, .number r =>
    if N.beq r N.zero then .error (.err "Divide by zero error")
    else .ok (.number (N.div l r))
  | .star, .number l, .number r => .ok (.number (N.mul l r))
  | .plus, .number l, .number r => .ok (.number (N.add l r))
  | .plus, .string l, .string r => .ok (.string (l ++ r))
  | .plus, lv, rv =>
    if ((!lv.is_number).xor (!rv.is_number)) then
      .error (.err "Can not add a \x27String\x27 and a \x27Number\x27 in addition operation")
    else if !lv.is_number || !rv.is_number then
      .error (.err ("Expected operands to be numbers in " ++
        TokenType.display N.toStr (.plus : TokenType α) ++ " expression"))
    else .error (.crashed "unreachable")
  | .greater, .number l, .number r => .ok (.fromBool (N.gt l r))
  | .greaterEqual, .number l, .number r => .ok (.fromBool (N.ge l r))
  | .less, .number l, .number r => .ok (.fromBool (N.lt l r))
  | .lessEqual, .number l, .number r => .ok (.fromBool (N.le l r))
  | .equalEqual, lv, rv => .ok (.fromBool (litEq N lv rv))
  | .bangEqual, lv, rv => .ok (.fromBool (!litEq N lv rv))
  | tt, lv, rv =>
    if !lv.is_number || !rv.is_number then
      .error (.err ("Expected operands to be numbers in " ++
        TokenType.display N.toStr tt ++ " expression"))
    else .error (.crashed "unreachable")

/-- Rust's `{:#?}` debug rendering of an operator token type, used only in
the dead arm of `evaluate` for unary operators the parser never produces
(approximated by the constructor name). -/
def TokenType.debugName : TokenType α → String
  | .minus => "Minus"
  | .bang => "Bang"
  | _ => "Other"

/-- `Interpreter::evaluate` (src/interpreter.rs), with the environment
threaded explicitly.  Every arm present in the source leaves the
environment unchanged; the `assign` arm is modelled from the spec (it is
missing from the copy of src/interpreter.rs): evaluate the right-hand side
and delegate to `Environment::assign`, which overwrites and returns the
assigned value. -/
def evaluate (N : NumOps α) (env : Environment α) :
    Expr α → Except RunErr (LiteralValue α × Environment α)
  | .literal v => .ok (v, env)
  | .variable ident =>
    match env.get ident with
    | .ok v => .ok (v, env)
    | .error e => .error e
  | .grouping e => evaluate N env e
  | .unary operator operand => do
    let (v, env') ← evaluate N env operand
    match v, operator.tag with
    | .number n, .minus => .ok (.number (N.neg n), env')
    | _, .minus => .error (.err "expected a number in negation expression")
    | v, .bang => .ok (.fromBool (!v.is_truthy), env')
    | _, o => .error (.err ("Did not expected " ++ o.debugName ++ " in unary expression"))
  | .binary l operator r => do
    let (lv, env1) ← evaluate N env l
    let (rv, env2) ← evaluate N env1 r
    let v ← handle_binary_expression N operator.tag lv rv
    .ok (v, env2)
  | .ternary condition true_expr false_expr => do
    let (cv, env1) ← evaluate N env condition
    match cv with
    | .true_ => evaluate N env1 true_expr
    | .false_ => evaluate N env1 false_expr
    | _ => .error (.err "expected a boolean expression as condition in ternary statement")
  | .assign name value => do
    let (v, env1) ← evaluate N env value
    let (v', env2) ← env1.assign name v
    .ok (v', env2)

/-- The interpreter's state: the session `Environment` plus the output
sink (the lines written by `writeln!`, without the trailing newline). -/
structure Interpreter (α : Type) where
  environment : Environment α
  output : List String
deriving DecidableEq, Repr

/-- `Interpreter::execute` (src/interpreter.rs). -/
def execute (N : NumOps α) (st : Interpreter α) :
    Stmt α → Except RunErr (Interpreter α)
  | .expr e => do
    let (_, env') ← evaluate N st.environment e
    .ok { st with environment := env' }
  | .print e => do
    let (v, env') ← evaluate N st.environment e
    .ok { environment := env', output := st.output ++ [v.display N.toStr] }
  | .varDec name initializer => do
    let value ← match initializer with
      | some e => do
        let (v, env') ← evaluate N st.environment e
        (.ok (some v, env') : Except RunErr _)
      | none => .ok (none, st.environment)
    .ok { st with environment := value.2.define name value.1 }

/-- `Interpreter::interpret`: executes the statements in order, stopping
at the first runtime error; the state reached before the failing statement
(environment and output sink) is retained. -/
def interpret (N : NumOps α) (st : Interpreter α) :
    List (Stmt α) → Interpreter α × Except RunErr Unit
  | [] => (st, .ok ())
  | s :: rest =>
    match execute N st s with
    | .ok st' => interpret N st' rest
    | .error e => (st, .error e)

/-! ## Scanner (src/scanner.rs)

The Rust scanner keeps two views of the input: the `String` `source`
(whose `len()` is a UTF-8 *byte* count and which is sliced by byte
offsets) and the `Vec<char>` `chars` (indexed by *character* position).
Both are modelled by one `List Char` together with explicit byte
arithmetic, so the mismatch between the two views — the scanner uses the
character cursor `current` both as a `chars` index and as a byte offset —
is preserved.  Out-of-bounds indexing and slicing at a non-boundary are
Rust panics, modelled by `ScanStop.crashed`; the scanner's loops take
explicit fuel and exhaustion is `ScanStop.fuelOut` (the scanner has a
genuinely non-terminating loop, see `handleStringLoop`). -/

/-- UTF-8 byte width of one character. -/
def charBytes (c : Char) : Nat :=
  if c.toNat < 128 then 1
  else if c.toNat < 2048 then 2
  else if c.toNat < 65536 then 3
  else 4

/-- UTF-8 byte length of a character list; models `String::len`. -/
def strBytes : List Char → Nat
  | [] => 0
  | c :: t => charBytes c + strBytes t

/-- Convert a byte offset into a character index; `none` when the offset
is past the end or falls inside a multi-byte character (slicing there is
a Rust panic). -/
def byteOffsetToIdx : List Char → Nat → Option Nat
  | _, 0 => some 0
  | [], _ + 1 => none
  | c :: t, off + 1 =>
    if off + 1 < charBytes c then none
    else (byteOffsetToIdx t (off + 1 - charBytes c)).map (· + 1)

/-- Abnormal outcome of a scanner function: a Rust panic, or exhaustion of
the modelling fuel. -/
inductive ScanStop where
  | crashed (msg : String)
  | fuelOut
deriving DecidableEq, Repr

/-- Byte-offset slicing `source[a..b]`, as used by the scanner's literal
lexers; panics on an invalid range. -/
def byteSliceE (cs : List Char) (a b : Nat) : Except ScanStop (List Char) :=
  match byteOffsetToIdx cs a, byteOffsetToIdx cs b with
  | some i, some j =>
    if i ≤ j then .ok ((cs.take j).drop i)
    else .error (.crashed "slice index starts at the end but ends before it")
  | _, _ => .error (.crashed "byte index is not a char boundary or out of bounds")

/-- The `KEYWORDS` map of src/scanner.rs, as the list of `insert` calls in
source order (`"if"` is inserted twice; `HashMap` keeps the last insert,
which an association-list first-match lookup reproduces since both carry
`TokenType::If`).  Note that `and`, `class` and `else` are absent. -/
def KEYWORDS : List (String × TokenType α) :=
  [("for", .for_), ("fun", .fun_), ("if", .if_), ("or", .or), ("nil", .nil),
   ("print", .print), ("return", .return_), ("super", .super_),
   ("this", .this_), ("true", .true_), ("false", .false_), ("var", .var),
   ("while", .while_), ("if", .if_)]

/-- `is_alpha` from src/scanner.rs (`is_ascii_alphabetic() || c == '_'`). -/
def is_alpha (c : Char) : Bool :=
  (c.isUpper || c.isLower) || c = '_'

/-- `is_alphanumeric` from src/scanner.rs (`is_ascii_alphanumeric() || c == '_'`). -/
def is_alphanumeric (c : Char) : Bool :=
  ((c.isUpper || c.isLower) || c.isDigit) || c = '_'

/-- The `Scanner` struct.  `source` doubles as the `chars` vector (it is
built from `source.chars()`); `diags` collects the `error::report`
diagnostics (modelled from the spec: src/error.rs is absent from the
sources; `report` writes `line: message` to the diagnostic stream). -/
structure Scanner (α : Type) where
  source : List Char
  tokens : List (Token α)
  start : Nat
  current : Nat
  line : Nat
  diags : List (Nat × String)
deriving DecidableEq, Repr

/-- `Scanner::new`. -/
def Scanner.new (source : List Char) : Scanner α :=
  { source := source, tokens := [], start := 0, current := 0, line := 0, diags := [] }

/-- `Scanner::is_at_end`: compares the character-count cursor against the
*byte* length of the source. -/
def Scanner.is_at_end (st : Scanner α) : Bool :=
  strBytes st.source ≤ st.current

/-- `Scanner::advance`: indexes the character vector; out of bounds is a
panic. -/
def Scanner.advance (st : Scanner α) : Except ScanStop (Char × Scanner α) :=
  match st.source.get? st.current with
  | some c => .ok (c, { st with current := st.current + 1 })
  | none => .error (.crashed "index out of bounds in advance")

/-- `Scanner::match_char`: after the `is_at_end` guard, `chars[current]`
is a direct index (a panic when the byte length exceeds the character
count). -/
def Scanner.match_char (st : Scanner α) (expected : Char) :
    Except ScanStop (Bool × Scanner α) :=
  if st.is_at_end then .ok (false, st)
  else
    match st.source.get? st.current with
    | none => .error (.crashed "index out of bounds in match_char")
    | some c =>
      if c ≠ expected then .ok (false, st)
      else .ok (true, { st with current := st.current + 1 })

/-- `Scanner::peek`. -/
def Scanner.peek (st : Scanner α) : Option Char :=
  st.source.get? st.current

/-- `Scanner::peek_next`. -/
def Scanner.peek_next (st : Scanner α) : Option Char :=
  st.source.get? (st.current + 1)

/-- `Scanner::add_token`. -/
def Scanner.add_token (st : Scanner α) (t : TokenType α) : Scanner α :=
  { st with tokens := st.tokens ++ [⟨t, st.line⟩] }

/-- `error::report`, modelled from the spec as appending to the diagnostic
stream. -/
def Scanner.report (st : Scanner α) (msg : String) : Scanner α :=
  { st with diags := st.diags ++ [(st.line, msg)] }

/-- The `//` line-comment loop inside `scan_token`: consume up to (not
including) the next newline. -/
def lineCommentLoop : Nat → Scanner α → Except ScanStop (Scanner α)
  | 0, _ => .error .fuelOut
  | fuel + 1, st =>
    match st.peek with
    | none => .ok st
    | some c =>
      if c = '\n' then .ok st
      else do
        let (_, st) ← st.advance
        lineCommentLoop fuel st

/-- `Scanner::handle_block_comment`: nested block comments; the recursive
call for an inner `/*` is followed by continuing the outer loop.  The
source's `match (peek, peek_next)` over character patterns is rendered as
the equivalent in-order equality tests. -/
def blockCommentLoop : Nat → Scanner α → Except ScanStop (Scanner α)
  | 0, _ => .error .fuelOut
  | fuel + 1, st =>
    match st.peek with
    | none => .ok st
    | some c =>
      if c = '*' ∧ st.peek_next = some '/' then do
        let (_, st) ← st.advance
        let (_, st) ← st.advance
        .ok st
      else if c = '/' ∧ st.peek_next = some '*' then do
        let (_, st) ← st.advance
        let (_, st) ← st.advance
        let st ← blockCommentLoop fuel st
        blockCommentLoop fuel st
      else if c = '\n' then do
        let st := { st with line := st.line + 1 }
        let (_, st) ← st.advance
        blockCommentLoop fuel st
      else do
        let (_, st) ← st.advance
        blockCommentLoop fuel st

/-- The `while let Some(c) = self.peek()` loop of `Scanner::handle_string`.
Note the `'\n'` arm increments the line counter but does not advance the
cursor, so the loop repeats the same state forever. -/
def handleStringLoop : Nat → Scanner α → Except ScanStop (Scanner α)
  | 0, _ => .error .fuelOut
  | fuel + 1, st =>
    match st.peek with
    | none => .ok st
    | some c =>
      if c = '"' then .ok st
      else if c = '\n' then handleStringLoop fuel { st with line := st.line + 1 }
      else do
        let (_, st) ← st.advance
        handleStringLoop fuel st

/-- `Scanner::handle_string`. -/
def handleString (fuel : Nat) (st : Scanner α) : Except ScanStop (Scanner α) := do
  let st ← handleStringLoop fuel st
  if st.is_at_end then
    .ok (st.report "Unterminated string")
  else do
    let (_, st) ← st.advance
    let value ← byteSliceE st.source (st.start + 1) (st.current - 1)
    .ok (st.add_token (.string (String.mk value)))

/-- `Scanner::take_numbers`: consume a run of ASCII digits. -/
def takeNumbersLoop : Nat → Scanner α → Except ScanStop (Scanner α)
  | 0, _ => .error .fuelOut
  | fuel + 1, st =>
    match st.peek with
    | none => .ok st
    | some c =>
      if c.isDigit then do
        let (_, st) ← st.advance
        takeNumbersLoop fuel st
      else .ok st

/-- `Scanner::handle_number`; `pn` models `str::parse::<f32>` (a literal
that fails to parse emits no token). -/
def handleNumber (pn : String → Option α) (fuel : Nat) (st : Scanner α) :
    Except ScanStop (Scanner α) := do
  let st ← takeNumbersLoop fuel st
  let st ←
    match st.peek, st.peek_next with
    | some c1, some c2 =>
      if c1 = '.' ∧ c2.isDigit then do
        let (_, st) ← st.advance
        takeNumbersLoop fuel st
      else (.ok st : Except ScanStop _)
    | _, _ => .ok st
  let s_literal ← byteSliceE st.source st.start st.current
  match pn (String.mk s_literal) with
  | some n => .ok (st.add_token (.number n))
  | none => .ok st

/-- The identifier-consuming loop of `Scanner::handle_identifier`. -/
def identLoop : Nat → Scanner α → Except ScanStop (Scanner α)
  | 0, _ => .error .fuelOut
  | fuel + 1, st =>
    match st.peek with
    | none => .ok st
    | some c =>
      if is_alphanumeric c then do
        let (_, st) ← st.advance
        identLoop fuel st
      else .ok st

/-- `Scanner::handle_identifier`: slice the lexeme, look it up in
`KEYWORDS`, fall back to an `Identifer` token. -/
def handleIdentifier (fuel : Nat) (st : Scanner α) : Except ScanStop (Scanner α) := do
  let st ← identLoop fuel st
  let lit ← byteSliceE st.source st.start st.current
  let literal := String.mk lit
  .ok (st.add_token ((alistLookup literal KEYWORDS).getD (.identifer literal)))

/-- `Scanner::scan_token`: dispatch on the next character. -/
def scanToken (pn : String → Option α) (fuel : Nat) (st : Scanner α) :
    Except ScanStop (Scanner α) := do
  let (c, st) ← st.advance
  if c = '(' then .ok (st.add_token .leftParen)
  else if c = ')' then .ok (st.add_token .rightParen)
  else if c = '{' then .ok (st.add_token .leftBrace)
  else if c = '}' then .ok (st.add_token .rightBrace)
  else if c = ',' then .ok (st.add_token .comma)
  else if c = '.' then .ok (st.add_token .dot)
  else if c = '-' then .ok (st.add_token .minus)
  else if c = '+' then .ok (st.add_token .plus)
  else if c = ';' then .ok (st.add_token .semicolon)
  else if c = '*' then .ok (st.add_token .star)
  else if c = '?' then .ok (st.add_token .questionMark)
  else if c = ':' then .ok (st.add_token .colon)
  else if c = '!' then do
    let (m, st) ← st.match_char '='
    .ok (st.add_token (if m then .bangEqual else .bang))
  else if c = '=' then do
    let (m, st) ← st.match_char '='
    .ok (st.add_token (if m then .equalEqual else .equal))
  else if c = '<' then do
    let (m, st) ← st.match_char '='
    .ok (st.add_token (if m then .lessEqual else .less))
  else if c = '>' then do
    let (m, st) ← st.match_char '='
    .ok (st.add_token (if m then .greaterEqual else .greater))
  else if c = '/' then do
    let (m, st) ← st.match_char '/'
    if m then lineCommentLoop fuel st
    else do
      let (m2, st) ← st.match_char '*'
      if m2 then blockCommentLoop fuel st
      else .ok (st.add_token .slash)
  else if c = '\n' then .ok { st with line := st.line + 1 }
  else if c = '\t' ∨ c = '\r' ∨ c = ' ' then .ok st
  else if c = '"' then handleString fuel st
  else if c.isDigit then handleNumber pn fuel st
  else if is_alpha c then handleIdentifier fuel st
  else .ok (st.report ("Unexpected character: " ++ String.mk [c]))

/-- The `while !self.is_at_end()` loop of `Scanner::scan_tokens`. -/
def scanTokensLoop (pn : String → Option α) : Nat → Scanner α →
    Except ScanStop (Scanner α)
  | 0, st => if st.is_at_end then .ok st else .error .fuelOut
  | fuel + 1, st =>
    if st.is_at_end then .ok st
    else do
      let st := { st with start := st.current }
      let st ← scanToken pn fuel st
      scanTokensLoop pn fuel st

/-- `Scanner::scan_tokens`: run the loop, then append the EOF token. -/
def scan_tokens (pn : String → Option α) (fuel : Nat) (source : List Char) :
    Except ScanStop (List (Token α)) := do
  let st ← scanTokensLoop pn fuel (Scanner.new source)
  .ok (st.add_token .eof).tokens

/-! ## Parser (src/parser.rs)

Recursive descent over the token list with a cursor.  Rust mutates
`self.current`; the model threads the `Parser` state explicitly and every
function returns `(result, parser-after)`.  Parse failures are
`Result::Err(String)` in the source (`PErr.msg`); the cyclic grammar
recursion is bounded by explicit fuel (`PErr.fuelOut`), which is an
artifact of the model only.  `error::report` and `eprintln!` diagnostics
are side-channel output with no bearing on the returned values and are not
tracked here. -/

/-- `Parser { tokens, current }`. -/
structure Parser (α : Type) where
  tokens : List (Token α)
  current : Nat
deriving DecidableEq, Repr

/-- A parse failure (`Err(String)`), or fuel exhaustion (model artifact). -/
inductive PErr where
  | msg (s : String)
  | fuelOut
deriving DecidableEq, Repr

/-- `types.contains(&token.tag)` with the derived `PartialEq`. -/
def containsType (N : NumOps α) (types : List (TokenType α)) (tag : TokenType α) : Bool :=
  types.any (fun t => tokenTypeEq N t tag)

/-- `Parser::peek`. -/
def Parser.peek (p : Parser α) : Option (Token α) :=
  p.tokens.get? p.current

/-- `Parser::match_token`: consume the next token when its tag is in the
list. -/
def Parser.match_token (N : NumOps α) (types : List (TokenType α)) (p : Parser α) :
    Option (Token α) × Parser α :=
  match p.peek with
  | some token =>
    if containsType N types token.tag then
      (some token, { p with current := p.current + 1 })
    else (none, p)
  | none => (none, p)

/-- `Parser::is_at_end`: at EOF or past the end of the token list. -/
def Parser.is_at_end (N : NumOps α) (p : Parser α) : Bool :=
  match p.peek with
  | some token => tokenTypeEq N token.tag .eof
  | none => true

/-- `Parser::advance` (used by `synchronize`). -/
def Parser.advance (N : NumOps α) (p : Parser α) : Option (Token α) × Parser α :=
  if p.is_at_end N then (none, p)
  else ({ p with current := p.current + 1 }.tokens.get? p.current,
        { p with current := p.current + 1 })

/-- `Parser::consume`: require a specific token type, else fail with the
given message. -/
def Parser.consume (N : NumOps α) (token : TokenType α) (err_message : String)
    (p : Parser α) : Except PErr Unit × Parser α :=
  match p.peek with
  | some t =>
    if tokenTypeEq N t.tag token then (.ok (), { p with current := p.current + 1 })
    else (.error (.msg err_message), p)
  | none => (.error (.msg err_message), p)

/-- `Parser::consume_identifier`: require an identifier token and return
its name. -/
def Parser.consume_identifier (err_message : String) (p : Parser α) :
    Except PErr String × Parser α :=
  match p.peek.bind (fun t => t.tag.get_identifier_value) with
  | some s => (.ok s, { p with current := p.current + 1 })
  | none => (.error (.msg err_message), p)

/-- `Parser::synchronize`: skip tokens until past a `;`/EOF or until a
statement-starting keyword. -/
def Parser.synchronize (N : NumOps α) : Nat → Parser α → Parser α
  | 0, p => p
  | fuel + 1, p =>
    match p.peek with
    | none => p
    | some token =>
      match token.tag with
      | .eof | .semicolon => (p.advance N).2
      | .class_ | .fun_ | .var | .for_ | .if_ | .while_ | .print | .return_ => p
      | _ => Parser.synchronize N fuel (p.advance N).2

mutual

/-- The statement-collecting loop of `Parser::parse`: gather declarations,
record whether any failed; on any failure the aggregate result is the
single parse error `"Parsing error(s) found"`. -/
def Parser.parseLoop (N : NumOps α) : Nat → Parser α → List (Stmt α) → Bool →
    Except PErr (List (Stmt α)) × Parser α
  | 0, p, _, _ => (.error .fuelOut, p)
  | fuel + 1, p, acc, hasErr =>
    if p.is_at_end N then
      (if hasErr then .error (.msg "Parsing error(s) found") else .ok acc.reverse, p)
    else
      match Parser.declaration N fuel p with
      | (.ok stmt, p') => Parser.parseLoop N fuel p' (stmt :: acc) hasErr
      | (.error .fuelOut, p') => (.error .fuelOut, p')
      | (.error (.msg _), p') => Parser.parseLoop N fuel p' acc true

/-- `Parser::declaration`: `var` declaration or statement; on failure run
`synchronize` before propagating the error. -/
def Parser.declaration (N : NumOps α) : Nat → Parser α →
    Except PErr (Stmt α) × Parser α
  | 0, p => (.error .fuelOut, p)
  | fuel + 1, p =>
    let (mv, p) := Parser.match_token N [.var] p
    match (if mv.isSome then Parser.finish_var_declaration N fuel p
           else Parser.statement N fuel p) with
    | (.error (.msg m), p') => (.error (.msg m), Parser.synchronize N fuel p')
    | r => r

/-- `Parser::finish_var_declaration`. -/
def Parser.finish_var_declaration (N : NumOps α) : Nat → Parser α →
    Except PErr (Stmt α) × Parser α
  | 0, p => (.error .fuelOut, p)
  | fuel + 1, p =>
    match Parser.consume_identifier "expected an identifer after \x27var\x27 keyword" p with
    | (.error e, p) => (.error e, p)
    | (.ok name, p) =>
      let (mEq, p) := Parser.match_token N [.equal] p
      let (initRes, p) :=
        if mEq.isSome then
          match Parser.expression N fuel p with
          | (.ok e, p) => ((.ok (some e) : Except PErr (Option (Expr α))), p)
          | (.error e, p) => (.error e, p)
        else (.ok none, p)
      match initRes with
      | .error e => (.error e, p)
      | .ok initializer =>
        match Parser.consume N .semicolon "expected a semicolon following statement" p with
        | (.error e, p) => (.error e, p)
        | (.ok _, p) => (.ok (.varDec name initializer), p)

/-- `Parser::statement`: `print` statement or expression statement. -/
def Parser.statement (N : NumOps α) : Nat → Parser α →
    Except PErr (Stmt α) × Parser α
  | 0, p => (.error .fuelOut, p)
  | fuel + 1, p =>
    let (mp, p) := Parser.match_token N [.print] p
    if mp.isSome then Parser.finish_print_statement N fuel p
    else Parser.expression_statement N fuel p

/-- `Parser::finish_print_statement`. -/
def Parser.finish_print_statement (N : NumOps α) : Nat → Parser α →
    Except PErr (Stmt α) × Parser α
  | 0, p => (.error .fuelOut, p)
  | fuel + 1, p =>
    match Parser.expression N fuel p with
    | (.error e, p) => (.error e, p)
    | (.ok expr, p) =>
      match Parser.consume N .semicolon "expected a semicolon following statement" p with
      | (.error e, p) => (.error e, p)
      | (.ok _, p) => (.ok (.print expr), p)

/-- `Parser::expression_statement`. -/
def Parser.expression_statement (N : NumOps α) : Nat → Parser α →
    Except PErr (Stmt α) × Parser α
  | 0, p => (.error .fuelOut, p)
  | fuel + 1, p =>
    match Parser.expression N fuel p with
    | (.error e, p) => (.error e, p)
    | (.ok expr, p) =>
      match Parser.consume N .semicolon "expected a semicolon following statement" p with
      | (.error e, p) => (.error e, p)
      | (.ok _, p) => (.ok (.expr expr), p)

/-- `Parser::expression`. -/
def Parser.expression (N : NumOps α) : Nat → Parser α →
    Except PErr (Expr α) × Parser α
  | 0, p => (.error .fuelOut, p)
  | fuel + 1, p => Parser.assignment N fuel p

/-- `Parser::assignment`: right-associative; a non-variable target with a
following `=` is reported (`eprintln!`) but tolerated, returning the left
side unchanged. -/
def Parser.assignment (N : NumOps α) : Nat → Parser α →
    Except PErr (Expr α) × Parser α
  | 0, p => (.error .fuelOut, p)
  | fuel + 1, p =>
    match Parser.ternary N fuel p with
    | (.error e, p) => (.error e, p)
    | (.ok expr, p) =>
      let (mEq, p) := Parser.match_token N [.equal] p
      if mEq.isSome then
        match Parser.assignment N fuel p with
        | (.error e, p) => (.error e, p)
        | (.ok value, p) =>
          match expr with
          | .variable token => (.ok (.assign token value), p)
          | _ => (.ok expr, p)
      else (.ok expr, p)

/-- `Parser::ternary`: `equality ( "?" equality ":" equality )?`. -/
def Parser.ternary (N : NumOps α) : Nat → Parser α →
    Except PErr (Expr α) × Parser α
  | 0, p => (.error .fuelOut, p)
  | fuel + 1, p =>
    match Parser.equality N fuel p with
    | (.error e, p) => (.error e, p)
    | (.ok condition, p) =>
      let (mq, p) := Parser.match_token N [.questionMark] p
      match mq with
      | none => (.ok condition, p)
      | some token =>
        match Parser.equality N fuel p with
        | (.error e, p) => (.error e, p)
        | (.ok true_expr, p) =>
          match Parser.consume N .colon
              ("uh oh expected \x27:\x27 in ternary expression, line: " ++ toString token.line) p with
          | (.error e, p) => (.error e, p)
          | (.ok _, p) =>
            match Parser.equality N fuel p with
            | (.error e, p) => (.error e, p)
            | (.ok false_expr, p) => (.ok (.ternary condition true_expr false_expr), p)

/-- `Parser::equality`: a leading `!=`/`==` with no left operand takes the
abnormal recovery path (`comparison().and_then(|_| expression())`,
discarding the first result); otherwise the left-associative loop. -/
def Parser.equality (N : NumOps α) : Nat → Parser α →
    Except PErr (Expr α) × Parser α
  | 0, p => (.error .fuelOut, p)
  | fuel + 1, p =>
    let (mOp, p) := Parser.match_token N [.bangEqual, .equalEqual] p
    match mOp with
    | some _ =>
      match Parser.comparison N fuel p with
      | (.error e, p) => (.error e, p)
      | (.ok _, p) => Parser.expression N fuel p
    | none =>
      match Parser.comparison N fuel p with
      | (.error e, p) => (.error e, p)
      | (.ok expr, p) => Parser.equalityLoop N fuel p expr

/-- The `while` loop of `Parser::equality`. -/
def Parser.equalityLoop (N : NumOps α) : Nat → Parser α → Expr α →
    Except PErr (Expr α) × Parser α
  | 0, p, _ => (.error .fuelOut, p)
  | fuel + 1, p, expr =>
    let (mOp, p) := Parser.match_token N [.bangEqual, .equalEqual] p
    match mOp with
    | none => (.ok expr, p)
    | some op =>
      match Parser.comparison N fuel p with
      | (.error e, p) => (.error e, p)
      | (.ok right_expr, p) => Parser.equalityLoop N fuel p (.binary expr op right_expr)

/-- `Parser::comparison`, with the same leading-operator recovery shape. -/
def Parser.comparison (N : NumOps α) : Nat → Parser α →
    Except PErr (Expr α) × Parser α
  | 0, p => (.error .fuelOut, p)
  | fuel + 1, p =>
    let (mOp, p) := Parser.match_token N [.greater, .greaterEqual, .less, .lessEqual] p
    match mOp with
    | some _ =>
      match Parser.comparison N fuel p with
      | (.error e, p) => (.error e, p)
      | (.ok _, p) => Parser.expression N fuel p
    | none =>
      match Parser.addition N fuel p with
      | (.error e, p) => (.error e, p)
      | (.ok expr, p) => Parser.comparisonLoop N fuel p expr

/-- The `while` loop of `Parser::comparison`. -/
def Parser.comparisonLoop (N : NumOps α) : Nat → Parser α → Expr α →
    Except PErr (Expr α) × Parser α
  | 0, p, _ => (.error .fuelOut, p)
  | fuel + 1, p, expr =>
    let (mOp, p) := Parser.match_token N [.greater, .greaterEqual, .less, .lessEqual] p
    match mOp with
    | none => (.ok expr, p)
    | some op =>
      match Parser.addition N fuel p with
      | (.error e, p) => (.error e, p)
      | (.ok right_expr, p) => Parser.comparisonLoop N fuel p (.binary expr op right_expr)

/-- `Parser::addition`: the leading-operator check tests `+` only (a
leading `-` is a unary minus); the loop consumes `+`/`-`. -/
def Parser.addition (N : NumOps α) : Nat → Parser α →
    Except PErr (Expr α) × Parser α
  | 0, p => (.error .fuelOut, p)
  | fuel + 1, p =>
    let (mOp, p) := Parser.match_token N [.plus] p
    match mOp with
    | some _ =>
      match Parser.comparison N fuel p with
      | (.error e, p) => (.error e, p)
      | (.ok _, p) => Parser.expression N fuel p
    | none =>
      match Parser.multiplication N fuel p with
      | (.error e, p) => (.error e, p)
      | (.ok expr, p) => Parser.additionLoop N fuel p expr

/-- The `while` loop of `Parser::addition`. -/
def Parser.additionLoop (N : NumOps α) : Nat → Parser α → Expr α →
    Except PErr (Expr α) × Parser α
  | 0, p, _ => (.error .fuelOut, p)
  | fuel + 1, p, expr =>
    let (mOp, p) := Parser.match_token N [.plus, .minus] p
    match mOp with
    | none => (.ok expr, p)
    | some op =>
      match Parser.multiplication N fuel p with
      | (.error e, p) => (.error e, p)
      | (.ok right_expr, p) => Parser.additionLoop N fuel p (.binary expr op right_expr)

/-- `Parser::multiplication`, the tightest binary tier. -/
def Parser.multiplication (N : NumOps α) : Nat → Parser α →
    Except PErr (Expr α) × Parser α
  | 0, p => (.error .fuelOut, p)
  | fuel + 1, p =>
    let (mOp, p) := Parser.match_token N [.slash, .star] p
    match mOp with
    | some _ =>
      match Parser.comparison N fuel p with
      | (.error e, p) => (.error e, p)
      | (.ok _, p) => Parser.expression N fuel p
    | none =>
      match Parser.unary N fuel p with
      | (.error e, p) => (.error e, p)
      | (.ok expr, p) => Parser.multiplicationLoop N fuel p expr

/-- The `while` loop of `Parser::multiplication`. -/
def Parser.multiplicationLoop (N : NumOps α) : Nat → Parser α → Expr α →
    Except PErr (Expr α) × Parser α
  | 0, p, _ => (.error .fuelOut, p)
  | fuel + 1, p, expr =>
    let (mOp, p) := Parser.match_token N [.slash, .star] p
    match mOp with
    | none => (.ok expr, p)
    | some op =>
      match Parser.unary N fuel p with
      | (.error e, p) => (.error e, p)
      | (.ok right_expr, p) => Parser.multiplicationLoop N fuel p (.binary expr op right_expr)

/-- `Parser::unary`: `("!" | "-") unary | primary`. -/
def Parser.unary (N : NumOps α) : Nat → Parser α →
    Except PErr (Expr α) × Parser α
  | 0, p => (.error .fuelOut, p)
  | fuel + 1, p =>
    let (m, p) := Parser.match_token N [.bang, .minus] p
    match m with
    | some token =>
      match Parser.unary N fuel p with
      | (.error e, p) => (.error e, p)
      | (.ok operand, p) => (.ok (.unary token operand), p)
    | none => Parser.primary N fuel p

/-- `Parser::primary`: literals, identifiers (as `Variable`), groupings;
an unrecognized token or end of input is a parse failure. -/
def Parser.primary (N : NumOps α) : Nat → Parser α →
    Except PErr (Expr α) × Parser α
  | 0, p => (.error .fuelOut, p)
  | fuel + 1, p =>
    match p.peek with
    | none => (.error (.msg "unexpected end of input"), p)
    | some token =>
      match token.tag with
      | .true_ => (.ok (.literal .true_), { p with current := p.current + 1 })
      | .false_ => (.ok (.literal .false_), { p with current := p.current + 1 })
      | .number n => (.ok (.literal (.number n)), { p with current := p.current + 1 })
      | .nil => (.ok (.literal .nil), { p with current := p.current + 1 })
      | .string s => (.ok (.literal (.string s)), { p with current := p.current + 1 })
      | .identifer _ => (.ok (.variable token), { p with current := p.current + 1 })
      | .leftParen =>
        let p := { p with current := p.current + 1 }
        match Parser.expression N fuel p with
        | (.error e, p) => (.error e, p)
        | (.ok expr, p) =>
          match Parser.consume N .rightParen "expected \x27)\x27 after expression" p with
          | (.ok _, p) => (.ok (.grouping expr), p)
          | (.error e, p) => (.error e, p)
      | token_type =>
        (.error (.msg ("unexpected \x27" ++ TokenType.display N.toStr token_type ++ "\x27")), p)

end

/-- `Parser::parse`, from `Parser::new(tokens)`. -/
def Parser.parse (N : NumOps α) (fuel : Nat) (tokens : List (Token α)) :
    Except PErr (List (Stmt α)) × Parser α :=
  Parser.parseLoop N fuel ⟨tokens, 0⟩ [] false

/-- The `run` pipeline of src/main.rs from the token sequence on: parse,
then interpret against a fresh interpreter (empty environment, empty
output sink). -/
def run_tokens (N : NumOps α) (fuel : Nat) (tokens : List (Token α)) :
    Except PErr (Interpreter α × Except RunErr Unit) :=
  match Parser.parse N fuel tokens with
  | (.ok stmts, _) => .ok (interpret N ⟨Environment.new, []⟩ stmts)
  | (.error e, _) => .error e

/-- Concrete instantiation of the number payload used by the witnesses:
integers with their standard operations. -/
def intOps : NumOps Int where
  add := (· + ·)
  sub := (· - ·)
  mul := (· * ·)
  div := (· / ·)
  neg := (- ·)
  beq := fun a b => a == b
  lt := fun a b => decide (a < b)
  le := fun a b => decide (a ≤ b)
  gt := fun a b => decide (a > b)
  ge := fun a b => decide (a ≥ b)
  zero := 0
  toStr := toString

/-- All characters are single-byte (ASCII) — exactly the inputs on which
the byte-length/char-index confusion in the scanner is harmless. -/
def asciiOnly (cs : List Char) : Bool :=
  cs.all (fun c => c.toNat < 128)

/-- An identifier-shaped lexeme: a leading `is_alpha` character followed by
`is_alphanumeric` characters (the shape consumed by `handle_identifier`). -/
def identShaped (cs : List Char) : Bool :=
  match cs with
  | [] => false
  | c :: t => is_alpha c && t.all is_alphanumeric

/-- Does a scanner outcome model a Rust panic? -/
def isCrash : Except ScanStop β → Bool
  | .error (.crashed _) => true
  | _ => false

/-- A scanner outcome that is not a panic: either fuel ran out, or the
scan succeeded preserving the source and keeping the cursor in bounds. -/
def scanGood (st : Scanner α) (r : Except ScanStop (Scanner α)) : Prop :=
  r = .error .fuelOut ∨
  ∃ st', r = .ok st' ∧ st'.source = st.source ∧ st'.current ≤ st.source.length

/-- The concrete two-entry environment used by the C4 witness. -/
def c4Env : List (String × LiteralValue Int) := [("a", .nil), ("b", .nil)]

/-! ## Helper lemmas -/

/-- Looking up after an insert-or-replace: the inserted key maps to the new
value, any other key is unaffected. -/
theorem alistLookup_alistInsert (k k' : String) (v : β) (l : List (String × β)) :
    alistLookup k (alistInsert k' v l) = if k = k' then some v else alistLookup k l := by
  induction l with
  | nil => simp only [alistInsert, alistLookup]
  | cons p t ih =>
    obtain ⟨k₀, v₀⟩ := p
    simp only [alistInsert]
    by_cases h1 : k' = k₀
    · subst h1
      simp only [if_pos rfl, alistLookup]
      by_cases h2 : k = k' <;> simp [h2]
    · rw [if_neg h1]
      simp only [alistLookup, ih]
      by_cases h2 : k = k₀
      · subst h2
        have h3 : ¬ k = k' := fun h => h1 h.symm
        simp [h3]
      · simp [h2]

/-- Evaluating a `Ternary` whose condition produced an error propagates
that error (no branch is evaluated). -/
theorem evaluate_ternary_cond_error (N : NumOps α) (env : Environment α)
    (cond t f : Expr α) (e : RunErr) (h : evaluate N env cond = .error e) :
    evaluate N env (.ternary cond t f) = .error e := by
  simp only [evaluate, h, bind, Except.bind]

/-! ## Claim theorems: evaluator and pipeline -/

set_option maxHeartbeats 1600000 in
/-- Parse result of the `a * b / c;` print program (claim C1 helper). -/
theorem c1_parse_div (N : NumOps α) (a b c : α) :
    Parser.parse N 16 [⟨.print,0⟩, ⟨.number a,0⟩, ⟨.star,0⟩, ⟨.number b,0⟩, ⟨.slash,0⟩, ⟨.number c,0⟩, ⟨.semicolon,0⟩, ⟨.eof,0⟩]
      = (.ok [Stmt.print (.binary (.binary (.literal (.number a)) ⟨.star,0⟩ (.literal (.number b))) ⟨.slash,0⟩ (.literal (.number c)))],
         ⟨[⟨.print,0⟩, ⟨.number a,0⟩, ⟨.star,0⟩, ⟨.number b,0⟩, ⟨.slash,0⟩, ⟨.number c,0⟩, ⟨.semicolon,0⟩, ⟨.eof,0⟩], 7⟩) := rfl

set_option maxHeartbeats 2000000 in
/-- C1: for all number payloads `a, b, c`, the parse-and-evaluate pipeline
on the token sequences of `print a + b * c;`, `print a * b + c;` and
`print a * b / c;` computes `a + b*c`, `a*b + c` and `(a*b)/c` respectively
(multiplication and division bind tighter than addition, tiers are
left-associative), rendering the result through the platform float-to-string
conversion `N.toStr`; division fails with the divide-by-zero runtime error
exactly when `c == 0.0`. -/
theorem c1_pipeline_precedence (α : Type) (N : NumOps α) (a b c : α) :
    run_tokens N 16 [⟨.print,0⟩, ⟨.number a,0⟩, ⟨.plus,0⟩, ⟨.number b,0⟩, ⟨.star,0⟩, ⟨.number c,0⟩, ⟨.semicolon,0⟩, ⟨.eof,0⟩]
      = .ok (⟨Environment.new, [N.toStr (N.add a (N.mul b c))]⟩, .ok ()) ∧
    run_tokens N 16 [⟨.print,0⟩, ⟨.number a,0⟩, ⟨.star,0⟩, ⟨.number b,0⟩, ⟨.plus,0⟩, ⟨.number c,0⟩, ⟨.semicolon,0⟩, ⟨.eof,0⟩]
      = .ok (⟨Environment.new, [N.toStr (N.add (N.mul a b) c)]⟩, .ok ()) ∧
    (N.beq c N.zero = false →
      run_tokens N 16 [⟨.print,0⟩, ⟨.number a,0⟩, ⟨.star,0⟩, ⟨.number b,0⟩, ⟨.slash,0⟩, ⟨.number c,0⟩, ⟨.semicolon,0⟩, ⟨.eof,0⟩]
        = .ok (⟨Environment.new, [N.toStr (N.div (N.mul a b) c)]⟩, .ok ())) ∧
    (N.beq c N.zero = true →
      run_tokens N 16 [⟨.print,0⟩, ⟨.number a,0⟩, ⟨.star,0⟩, ⟨.number b,0⟩, ⟨.slash,0⟩, ⟨.number c,0⟩, ⟨.semicolon,0⟩, ⟨.eof,0⟩]
        = .ok (⟨Environment.new, []⟩, .error (.err "Divide by zero error"))) := by
  refine ⟨rfl, rfl, ?_, ?_⟩ <;> intro hc <;>
    simp only [run_tokens, c1_parse_div, interpret, execute, evaluate,
      handle_binary_expression, hc, bind, Except.bind, pure, Except.pure,
      LiteralValue.display, Bool.false_eq_true, if_false, if_true, ite_false, ite_true,
      List.nil_append, Environment.new]

/-- Witness for C1 at `a = 1, b = 6, c = 3` and `c = 0` over the integer
instantiation. -/
theorem c1_pipeline_precedence_witness :
    (intOps.beq 3 intOps.zero = false ∧
      run_tokens intOps 16 [⟨.print,0⟩, ⟨.number 1,0⟩, ⟨.star,0⟩, ⟨.number 6,0⟩, ⟨.slash,0⟩, ⟨.number 3,0⟩, ⟨.semicolon,0⟩, ⟨.eof,0⟩]
        = .ok (⟨Environment.new, [intOps.toStr (intOps.div (intOps.mul 1 6) 3)]⟩, .ok ())) ∧
    (intOps.beq 0 intOps.zero = true ∧
      run_tokens intOps 16 [⟨.print,0⟩, ⟨.number 1,0⟩, ⟨.star,0⟩, ⟨.number 6,0⟩, ⟨.slash,0⟩, ⟨.number 0,0⟩, ⟨.semicolon,0⟩, ⟨.eof,0⟩]
        = .ok (⟨Environment.new, []⟩, .error (.err "Divide by zero error"))) :=
  ⟨⟨by decide, (c1_pipeline_precedence Int intOps 1 6 3).2.2.1 (by decide)⟩,
   ⟨by decide, (c1_pipeline_precedence Int intOps 1 6 0).2.2.2 (by decide)⟩⟩

/-- C2: a `Ternary` evaluates only the branch selected by the condition —
if the condition evaluates to exactly `True` the result is that of the true
branch and the false branch is never evaluated (it is arbitrary here), and
symmetrically for `False`; any other condition value (numbers, strings,
`Nil`, …) is rejected with the non-boolean-condition runtime error, even
when truthy. -/
theorem c2_ternary_strict_condition (N : NumOps α) (env env' : Environment α)
    (cond t f : Expr α) (v : LiteralValue α) :
    (evaluate N env cond = .ok (.true_, env') →
      evaluate N env (.ternary cond t f) = evaluate N env' t) ∧
    (evaluate N env cond = .ok (.false_, env') →
      evaluate N env (.ternary cond t f) = evaluate N env' f) ∧
    (evaluate N env cond = .ok (v, env') → v ≠ .true_ → v ≠ .false_ →
      evaluate N env (.ternary cond t f) =
        .error (.err "expected a boolean expression as condition in ternary statement")) := by
  refine ⟨?_, ?_, ?_⟩
  · intro h
    simp only [evaluate, h, bind, Except.bind]
  · intro h
    simp only [evaluate, h, bind, Except.bind]
  · intro h hv1 hv2
    cases v <;> simp_all [evaluate, h, bind, Except.bind]

/-- Witness for C2: with a `True` condition the divide-by-zero in the
untaken false branch never fires, and a numeric (truthy) condition is
rejected. -/
theorem c2_ternary_strict_condition_witness :
    evaluate intOps ⟨[]⟩ (.ternary (.literal .true_) (.literal (.number 1))
        (.binary (.literal (.number 1)) ⟨.slash, 0⟩ (.literal (.number 0))))
      = evaluate intOps ⟨[]⟩ (.literal (.number 1)) ∧
    evaluate intOps ⟨[]⟩ (.ternary (.literal (.number 3)) (.literal (.number 1))
        (.literal (.number 2)))
      = .error (.err "expected a boolean expression as condition in ternary statement") :=
  ⟨(c2_ternary_strict_condition intOps ⟨[]⟩ ⟨[]⟩ _ _ _ .nil).1 rfl,
   (c2_ternary_strict_condition intOps ⟨[]⟩ ⟨[]⟩ _ _ _ (.number 3)).2.2 rfl
     (by decide) (by decide)⟩

/-- C3: for a name with no binding in the environment, executing the
assignment statement `a = 1;` fails with the undefined-variable runtime
error, and executing the bare read statement `a;` fails with the identical
error, both of the form `[line <n>] Error: variable '<name>' is not
defined`; the interpreter state is left untouched. -/
theorem c3_undefined_variable_errors (N : NumOps α) (st : Interpreter α)
    (name : String) (ln : Nat) (v : LiteralValue α)
    (h : alistLookup name st.environment.globals = none) :
    interpret N st [.expr (.assign ⟨.identifer name, ln⟩ (.literal v))] =
      (st, .error (.err ("[line " ++ toString ln ++ "] Error: variable \x27" ++
        name ++ "\x27 is not defined"))) ∧
    interpret N st [.expr (.variable ⟨.identifer name, ln⟩)] =
      (st, .error (.err ("[line " ++ toString ln ++ "] Error: variable \x27" ++
        name ++ "\x27 is not defined"))) := by
  constructor <;>
    simp only [interpret, execute, evaluate, Environment.assign, Environment.get,
      TokenType.get_identifier_value, h, Option.isSome_none, Bool.false_eq_true,
      if_false, bind, Except.bind]

/-- Witness for C3 at the empty environment, `name = "a"`, line 7. -/
theorem c3_undefined_variable_errors_witness :
    interpret intOps ⟨⟨[]⟩, []⟩ [.expr (.assign ⟨.identifer "a", 7⟩ (.literal (.number 1)))] =
      (⟨⟨[]⟩, []⟩, .error (.err "[line 7] Error: variable \x27a\x27 is not defined")) ∧
    interpret intOps ⟨⟨[]⟩, []⟩ [.expr (.variable ⟨.identifer "a", 7⟩)] =
      (⟨⟨[]⟩, []⟩, .error (.err "[line 7] Error: variable \x27a\x27 is not defined")) :=
  c3_undefined_variable_errors intOps ⟨⟨[]⟩, []⟩ "a" 7 (.number 1) rfl

set_option maxHeartbeats 1600000 in
/-- C4: assignment to an already-defined variable overwrites the binding
and the assignment expression evaluates to the assigned value; the parser
builds chained assignment right-associatively, and evaluating the chain
`a = b = v` stores `v` into both `b` and `a`. -/
theorem c4_assign_overwrites_and_chains (N : NumOps α) (env : Environment α)
    (na nb : String) (la lb : Nat) (n : α) (v w₁ w₂ : LiteralValue α) :
    Parser.parse N 16 [⟨.identifer na, la⟩, ⟨.equal, la⟩, ⟨.identifer nb, lb⟩, ⟨.equal, lb⟩, ⟨.number n, lb⟩, ⟨.semicolon, lb⟩, ⟨.eof, lb⟩]
      = (.ok [.expr (.assign ⟨.identifer na, la⟩ (.assign ⟨.identifer nb, lb⟩ (.literal (.number n))))],
         ⟨[⟨.identifer na, la⟩, ⟨.equal, la⟩, ⟨.identifer nb, lb⟩, ⟨.equal, lb⟩, ⟨.number n, lb⟩, ⟨.semicolon, lb⟩, ⟨.eof, lb⟩], 6⟩) ∧
    (alistLookup na env.globals = some w₁ →
      evaluate N env (.assign ⟨.identifer na, la⟩ (.literal v)) =
        .ok (v, ⟨alistInsert na v env.globals⟩)) ∧
    (alistLookup na env.globals = some w₁ → alistLookup nb env.globals = some w₂ →
      evaluate N env (.assign ⟨.identifer na, la⟩ (.assign ⟨.identifer nb, lb⟩ (.literal v))) =
        .ok (v, ⟨alistInsert na v (alistInsert nb v env.globals)⟩) ∧
      alistLookup na (alistInsert na v (alistInsert nb v env.globals)) = some v ∧
      alistLookup nb (alistInsert na v (alistInsert nb v env.globals)) = some v) := by
  refine ⟨rfl, ?_, ?_⟩
  · intro ha
    simp only [evaluate, Environment.assign, TokenType.get_identifier_value, ha,
      Option.isSome_some, if_true, bind, Except.bind]
  · intro ha hb
    have hlook : alistLookup na (alistInsert nb v env.globals) =
        if na = nb then some v else alistLookup na env.globals :=
      alistLookup_alistInsert na nb v env.globals
    refine ⟨?_, ?_, ?_⟩
    · simp only [evaluate, Environment.assign, TokenType.get_identifier_value, hb,
        Option.isSome_some, if_true, bind, Except.bind, hlook, ha]
      by_cases hab : na = nb <;> simp [hab]
    · rw [alistLookup_alistInsert]
      simp
    · rw [alistLookup_alistInsert, alistLookup_alistInsert]
      by_cases hab : nb = na <;> simp [hab]

/-- Witness for C4 with `a`, `b` both bound in a concrete environment. -/
theorem c4_assign_overwrites_and_chains_witness :
    (alistLookup "a" c4Env = some .nil ∧ alistLookup "b" c4Env = some .nil) ∧
    (evaluate intOps ⟨c4Env⟩
        (.assign ⟨.identifer "a", 0⟩ (.assign ⟨.identifer "b", 0⟩ (.literal (.number 1)))) =
      .ok (.number 1, ⟨alistInsert "a" (.number 1) (alistInsert "b" (.number 1) c4Env)⟩) ∧
    alistLookup "a" (alistInsert "a" (.number 1) (alistInsert "b" (.number 1) c4Env)) = some (.number 1) ∧
    alistLookup "b" (alistInsert "a" (.number 1) (alistInsert "b" (.number 1) c4Env)) = some (.number 1)) :=
  ⟨⟨by decide, by decide⟩,
   (c4_assign_overwrites_and_chains intOps ⟨c4Env⟩ "a" "b" 0 0 1
      (.number 1) .nil .nil).2.2 (by decide) (by decide)⟩

/-- C5: the variable-store invariant — a binding is only ever created by
`define` (used by `var` declarations), which unconditionally inserts or
overwrites with no already-declared check and stores `Nil` when there is no
initializer, while `assign` on an absent name fails and the interpreter
state (hence the set of bound names) is left unchanged. -/
theorem c5_define_assign_invariant (N : NumOps α) (st : Interpreter α)
    (name : String) (ln : Nat) (v : LiteralValue α) :
    execute N st (.varDec name none) =
      .ok { st with environment := ⟨alistInsert name .nil st.environment.globals⟩ } ∧
    execute N st (.varDec name (some (.literal v))) =
      .ok { st with environment := ⟨alistInsert name v st.environment.globals⟩ } ∧
    (alistLookup name st.environment.globals = none →
      st.environment.assign ⟨.identifer name, ln⟩ v =
        .error (.err ("[line " ++ toString ln ++ "] Error: variable \x27" ++
          name ++ "\x27 is not defined")) ∧
      interpret N st [.expr (.assign ⟨.identifer name, ln⟩ (.literal v))] =
        (st, .error (.err ("[line " ++ toString ln ++ "] Error: variable \x27" ++
          name ++ "\x27 is not defined")))) := by
  refine ⟨?_, ?_, ?_⟩
  · simp only [execute, Environment.define, Option.getD, bind, Except.bind]
  · simp only [execute, evaluate, Environment.define, Option.getD, bind, Except.bind]
  · intro h
    constructor <;>
      simp only [interpret, execute, evaluate, Environment.assign,
        TokenType.get_identifier_value, h, Option.isSome_none, Bool.false_eq_true,
        if_false, bind, Except.bind]

/-- Witness for C5 at a one-entry environment and an absent name. -/
theorem c5_define_assign_invariant_witness :
    execute intOps ⟨⟨[("a", .nil)]⟩, []⟩ (.varDec "a" (some (.literal (.number 2)))) =
      .ok ⟨⟨alistInsert "a" (.number 2) [("a", .nil)]⟩, []⟩ ∧
    interpret intOps ⟨⟨[("a", .nil)]⟩, []⟩ [.expr (.assign ⟨.identifer "z", 3⟩ (.literal (.number 1)))] =
      (⟨⟨[("a", .nil)]⟩, []⟩, .error (.err "[line 3] Error: variable \x27z\x27 is not defined")) :=
  ⟨(c5_define_assign_invariant intOps ⟨⟨[("a", .nil)]⟩, []⟩ "a" 0 (.number 2)).2.1,
   ((c5_define_assign_invariant intOps ⟨⟨[("a", .nil)]⟩, []⟩ "z" 3 (.number 1)).2.2 rfl).2⟩

/-- C6: `"5" + 5` fails with the dedicated string/number mismatch message
and `"5" > 5` with the generic operands-must-be-numbers message; in
general, `+` yields the mismatch message whenever exactly one operand is a
`Number`, `>` yields the generic message whenever some operand is not a
`Number`, and the two messages are distinct. -/
theorem c6_distinct_type_error_messages (N : NumOps α) (env : Environment α)
    (five : α) (lv rv : LiteralValue α) :
    evaluate N env (.binary (.literal (.string "5")) ⟨.plus, 0⟩ (.literal (.number five))) =
      .error (.err "Can not add a \x27String\x27 and a \x27Number\x27 in addition operation") ∧
    evaluate N env (.binary (.literal (.string "5")) ⟨.greater, 0⟩ (.literal (.number five))) =
      .error (.err "Expected operands to be numbers in > expression") ∧
    (lv.is_number ≠ rv.is_number →
      handle_binary_expression N .plus lv rv =
        .error (.err "Can not add a \x27String\x27 and a \x27Number\x27 in addition operation")) ∧
    (¬(lv.is_number = true ∧ rv.is_number = true) →
      handle_binary_expression N .greater lv rv =
        .error (.err "Expected operands to be numbers in > expression")) ∧
    ("Can not add a \x27String\x27 and a \x27Number\x27 in addition operation" ≠
      "Expected operands to be numbers in > expression") := by
  refine ⟨?_, ?_, ?_, ?_, by decide⟩
  · simp only [evaluate, bind, Except.bind, handle_binary_expression,
      LiteralValue.is_number, Bool.not_false, Bool.not_true, Bool.xor_false, if_true]
  · simp [evaluate, bind, Except.bind, handle_binary_expression,
      LiteralValue.is_number, TokenType.display]
  · intro h
    cases lv <;> cases rv <;>
      simp_all [handle_binary_expression, LiteralValue.is_number, TokenType.display]
  · intro h
    cases lv <;> cases rv <;>
      simp_all [handle_binary_expression, LiteralValue.is_number, TokenType.display]

/-- Witness for C6 at `lv = "x"` (a string) and `rv = 2` (a number). -/
theorem c6_distinct_type_error_messages_witness :
    handle_binary_expression intOps .plus (.string "x") (.number 2) =
      .error (.err "Can not add a \x27String\x27 and a \x27Number\x27 in addition operation") ∧
    handle_binary_expression intOps .greater (.string "x") (.number 2) =
      .error (.err "Expected operands to be numbers in > expression") :=
  ⟨(c6_distinct_type_error_messages intOps ⟨[]⟩ 0 (.string "x") (.number 2)).2.2.1 (by decide),
   (c6_distinct_type_error_messages intOps ⟨[]⟩ 0 (.string "x") (.number 2)).2.2.2.1 (by decide)⟩

/-- C9: `interpret` executes statements strictly in order and stops at the
first failing statement: if the prefix `xs` runs cleanly to state `st1` and
the next statement `y` fails with `e`, then running `xs ++ y :: ys` ends in
exactly `(st1, error e)` — the following statements `ys` are never
executed, and the output already written while running `xs` (carried in
`st1`) is retained. -/
theorem c9_interpret_fail_fast (N : NumOps α) (st st1 : Interpreter α)
    (xs : List (Stmt α)) (y : Stmt α) (ys : List (Stmt α)) (e : RunErr)
    (hxs : interpret N st xs = (st1, .ok ()))
    (hy : execute N st1 y = .error e) :
    interpret N st (xs ++ y :: ys) = (st1, .error e) := by
  induction xs generalizing st with
  | nil =>
    simp only [interpret, Prod.mk.injEq] at hxs
    rw [List.nil_append]
    simp only [interpret, hxs.1, hy]
  | cons s rest ih =>
    rw [List.cons_append]
    simp only [interpret] at hxs ⊢
    cases hs : execute N st s with
    | ok st' =>
      rw [hs] at hxs
      simp only [hs]
      exact ih st' hxs
    | error e' =>
      rw [hs] at hxs
      simp at hxs

/-- Witness for C9: a successful print, then an undefined-variable read,
then another print; execution stops at the failure and the first print's
output is retained. -/
theorem c9_interpret_fail_fast_witness :
    interpret intOps ⟨⟨[]⟩, []⟩
        ([Stmt.print (.literal .nil)] ++
          Stmt.expr (.variable ⟨.identifer "z", 0⟩) :: [Stmt.print (.literal .true_)]) =
      (⟨⟨[]⟩, ["nil"]⟩, .error (.err "[line 0] Error: variable \x27z\x27 is not defined")) :=
  c9_interpret_fail_fast intOps ⟨⟨[]⟩, []⟩ ⟨⟨[]⟩, ["nil"]⟩ _ _ _ _ rfl rfl

/-! ## Claim theorems: scanner -/

/-- Once `handle_string`'s loop sees a newline it loops forever: the `'\n'`
arm increments the line counter without advancing the cursor, so the same
state (up to the line number) recurs and any amount of fuel runs out. -/
theorem handleStringLoop_newline_stuck (fuel : Nat) :
    ∀ (st : Scanner α), st.peek = some '\n' → handleStringLoop fuel st = .error .fuelOut := by
  induction fuel with
  | zero => intro st h; rfl
  | succ f ih =>
    intro st h
    have h' : Scanner.peek { st with line := st.line + 1 } = some '\n' := h
    simp only [handleStringLoop, h]
    simp only [reduceCtorEq, reduceIte, Char.reduceEq]
    exact ih _ h'

/-- C8 (failing input): scanning the five-character source `"a␊b"` — a
string literal containing a newline — never terminates: for every fuel
bound the scan is still running (the string loop is stuck on the newline),
so `scan_tokens` produces no token sequence at all, contradicting the
claim that every scan terminates in an EOF-ended token sequence with
newlines inside strings consumed. -/
theorem c8_scan_string_newline_diverges (α : Type) (pn : String → Option α) :
    ∀ fuel, scan_tokens pn fuel ['"', 'a', '\n', 'b', '"'] = .error .fuelOut := by
  intro fuel
  match fuel with
  | 0 => rfl
  | 1 => rfl
  | (f+2) =>
    have hs : handleStringLoop f
        (⟨['"', 'a', '\n', 'b', '"'], [], 0, 2, 0, []⟩ : Scanner α) = .error (.fuelOut) :=
      handleStringLoop_newline_stuck f _ rfl
    have e1 : scan_tokens pn (f+2) ['"', 'a', '\n', 'b', '"'] =
        Except.bind (Except.bind (Except.bind (handleStringLoop f (⟨['"', 'a', '\n', 'b', '"'], [], 0, 2, 0, []⟩ : Scanner α))
          (fun st => if st.is_at_end then Except.ok (st.report "Unterminated string")
            else Except.bind st.advance (fun p => Except.bind (byteSliceE p.2.source (p.2.start + 1) (p.2.current - 1)) (fun value => Except.ok (p.2.add_token (.string (String.mk value)))))))
          (fun st => scanTokensLoop pn (f+1) st))
          (fun st => Except.ok (st.add_token .eof).tokens) := rfl
    rw [e1, hs]
    rfl

/-- Bridge from `UInt32` comparison to `Nat` comparison on `Char` values. -/
theorem char_val_le_toNat {c : Char} {n : UInt32} (h : c.val ≤ n) : c.toNat ≤ n.toNat := by
  rw [UInt32.le_def, BitVec.le_def] at h
  exact h

/-- Bridge from `UInt32` comparison to `Nat` comparison on `Char` values. -/
theorem char_val_ge_toNat {c : Char} {n : UInt32} (h : n ≤ c.val) : n.toNat ≤ c.toNat := by
  rw [UInt32.le_def, BitVec.le_def] at h
  exact h

/-- Numeric range of an `is_alpha` character. -/
theorem is_alpha_ranges (c : Char) (h : is_alpha c = true) :
    (65 ≤ c.toNat ∧ c.toNat ≤ 90) ∨ (97 ≤ c.toNat ∧ c.toNat ≤ 122) ∨ c.toNat = 95 := by
  simp only [is_alpha, Bool.or_eq_true, decide_eq_true_eq] at h
  rcases h with (hu | hl) | he
  · simp only [Char.isUpper, Bool.and_eq_true, decide_eq_true_eq, ge_iff_le] at hu
    exact Or.inl ⟨char_val_ge_toNat hu.1, char_val_le_toNat hu.2⟩
  · simp only [Char.isLower, Bool.and_eq_true, decide_eq_true_eq, ge_iff_le] at hl
    exact Or.inr (Or.inl ⟨char_val_ge_toNat hl.1, char_val_le_toNat hl.2⟩)
  · subst he
    exact Or.inr (Or.inr rfl)

/-- Numeric range of an `is_alphanumeric` character. -/
theorem is_alphanumeric_ranges (c : Char) (h : is_alphanumeric c = true) :
    (65 ≤ c.toNat ∧ c.toNat ≤ 90) ∨ (97 ≤ c.toNat ∧ c.toNat ≤ 122) ∨
    (48 ≤ c.toNat ∧ c.toNat ≤ 57) ∨ c.toNat = 95 := by
  simp only [is_alphanumeric, Bool.or_eq_true, decide_eq_true_eq] at h
  rcases h with ((hu | hl) | hd) | he
  · simp only [Char.isUpper, Bool.and_eq_true, decide_eq_true_eq, ge_iff_le] at hu
    exact Or.inl ⟨char_val_ge_toNat hu.1, char_val_le_toNat hu.2⟩
  · simp only [Char.isLower, Bool.and_eq_true, decide_eq_true_eq, ge_iff_le] at hl
    exact Or.inr (Or.inl ⟨char_val_ge_toNat hl.1, char_val_le_toNat hl.2⟩)
  · simp only [Char.isDigit, Bool.and_eq_true, decide_eq_true_eq, ge_iff_le] at hd
    exact Or.inr (Or.inr (Or.inl ⟨char_val_ge_toNat hd.1, char_val_le_toNat hd.2⟩))
  · subst he
    exact Or.inr (Or.inr (Or.inr rfl))

/-- Numeric range of a digit. -/
theorem isDigit_ranges (c : Char) (h : c.isDigit = true) :
    48 ≤ c.toNat ∧ c.toNat ≤ 57 := by
  simp only [Char.isDigit, Bool.and_eq_true, decide_eq_true_eq, ge_iff_le] at h
  exact ⟨char_val_ge_toNat h.1, char_val_le_toNat h.2⟩

/-- `is_alphanumeric` characters are ASCII. -/
theorem is_alphanumeric_toNat_lt (c : Char) (h : is_alphanumeric c = true) : c.toNat < 128 := by
  rcases is_alphanumeric_ranges c h with h1 | h1 | h1 | h1 <;> omega

/-- `is_alpha` characters are `is_alphanumeric`. -/
theorem is_alpha_imp_alphanumeric (c : Char) (h : is_alpha c = true) :
    is_alphanumeric c = true := by
  simp only [is_alpha, Bool.or_eq_true, decide_eq_true_eq] at h
  simp only [is_alphanumeric, Bool.or_eq_true, decide_eq_true_eq]
  tauto

/-- `is_alpha` characters are not digits. -/
theorem is_alpha_isDigit_false (c : Char) (h : is_alpha c = true) : c.isDigit = false := by
  rcases hd : c.isDigit with _ | _
  · rfl
  · exfalso
    have h1 := is_alpha_ranges c h
    have h2 := isDigit_ranges c hd
    rcases h1 with h1 | h1 | h1 <;> omega

/-- ASCII lists have byte length equal to character count. -/
theorem strBytes_of_ascii (cs : List Char) (h : asciiOnly cs = true) :
    strBytes cs = cs.length := by
  induction cs with
  | nil => rfl
  | cons c t ih =>
    simp only [asciiOnly, List.all_cons, Bool.and_eq_true, decide_eq_true_eq] at h
    have hc : charBytes c = 1 := by simp [charBytes, h.1]
    simp only [strBytes, hc, List.length_cons]
    rw [ih (by simp [asciiOnly, h.2])]
    omega

/-- On ASCII text every offset up to the length is a char boundary at the
same index. -/
theorem byteOffsetToIdx_of_ascii (cs : List Char) (h : asciiOnly cs = true) :
    ∀ n, n ≤ cs.length → byteOffsetToIdx cs n = some n := by
  induction cs with
  | nil =>
    intro n hn
    simp only [List.length_nil, Nat.le_zero] at hn
    subst hn
    rfl
  | cons c t ih =>
    intro n hn
    match n with
    | 0 => rfl
    | m + 1 =>
      simp only [asciiOnly, List.all_cons, Bool.and_eq_true, decide_eq_true_eq] at h
      have hc : charBytes c = 1 := by simp [charBytes, h.1]
      simp only [byteOffsetToIdx, hc]
      rw [if_neg (by omega)]
      have := ih (by simp [asciiOnly, h.2]) m (by simpa using hn)
      simp [this]

/-- Byte slicing on ASCII text is ordinary take/drop slicing. -/
theorem byteSliceE_of_ascii (cs : List Char) (h : asciiOnly cs = true)
    (a b : Nat) (hab : a ≤ b) (hb : b ≤ cs.length) :
    byteSliceE cs a b = .ok ((cs.take b).drop a) := by
  simp [byteSliceE, byteOffsetToIdx_of_ascii cs h a (le_trans hab hb),
    byteOffsetToIdx_of_ascii cs h b hb, hab]

/-- When every character from the cursor on is `is_alphanumeric`, the
identifier loop consumes the whole rest of the source. -/
theorem identLoop_consumes (fuel : Nat) :
    ∀ (st : Scanner α),
      (∀ c ∈ st.source.drop st.current, is_alphanumeric c = true) →
      st.current ≤ st.source.length →
      st.source.length - st.current < fuel →
      identLoop fuel st = .ok { st with current := st.source.length } := by
  induction fuel with
  | zero => intro st _ _ hf; omega
  | succ f ih =>
    intro st hall hb hf
    match hp : st.source.get? st.current with
    | none =>
      have hlen : st.source.length ≤ st.current := by
        simpa [List.get?_eq_none] using hp
      have hcur : st.current = st.source.length := Nat.le_antisymm hb hlen
      simp only [identLoop, Scanner.peek, hp, ← hcur]
    | some c =>
      have hlt : st.current < st.source.length := by
        rcases List.get?_eq_some.mp hp with ⟨hl, _⟩
        exact hl
      have hmem : c ∈ st.source.drop st.current := by
        apply List.get?_mem (n := 0)
        rw [List.get?_eq_getElem?, List.getElem?_drop]
        rw [List.get?_eq_getElem?] at hp
        simpa using hp
      have hc : is_alphanumeric c = true := hall c hmem
      have hadv : Scanner.advance st = .ok (c, { st with current := st.current + 1 }) := by
        unfold Scanner.advance
        rw [hp]
      simp only [identLoop, Scanner.peek, hp, hc, if_true, hadv, bind, Except.bind]
      have hall' : ∀ d ∈ st.source.drop (st.current + 1), is_alphanumeric d = true := by
        intro d hd
        apply hall
        have : st.source.drop (st.current + 1) = (st.source.drop st.current).drop 1 := by
          rw [List.drop_drop]
        rw [this] at hd
        exact List.drop_subset 1 _ hd
      exact ih { st with current := st.current + 1 } hall'
        (by show st.current + 1 ≤ st.source.length; omega)
        (by show st.source.length - (st.current + 1) < f; omega)

/-- `scan_token` on an `is_alpha` character dispatches to
`handle_identifier`. -/
theorem scanToken_alpha_dispatch (pn : String → Option α) (fuel : Nat)
    (st : Scanner α) (c : Char)
    (hp : st.source.get? st.current = some c) (hc : is_alpha c = true) :
    scanToken pn fuel st = handleIdentifier fuel { st with current := st.current + 1 } := by
  have hadv : Scanner.advance st = .ok (c, { st with current := st.current + 1 }) := by
    unfold Scanner.advance
    rw [hp]
  have hne : ∀ d : Char, is_alpha d = false → ¬(c = d) := by
    intro d hd heq
    rw [heq] at hc
    rw [hc] at hd
    cases hd
  simp only [scanToken, hadv, bind, Except.bind]
  rw [if_neg (hne '(' (by decide)), if_neg (hne ')' (by decide)),
    if_neg (hne '{' (by decide)), if_neg (hne '}' (by decide)),
    if_neg (hne ',' (by decide)), if_neg (hne '.' (by decide)),
    if_neg (hne '-' (by decide)), if_neg (hne '+' (by decide)),
    if_neg (hne ';' (by decide)), if_neg (hne '*' (by decide)),
    if_neg (hne '?' (by decide)), if_neg (hne ':' (by decide)),
    if_neg (hne '!' (by decide)), if_neg (hne '=' (by decide)),
    if_neg (hne '<' (by decide)), if_neg (hne '>' (by decide)),
    if_neg (hne '/' (by decide)), if_neg (hne '\n' (by decide)),
    if_neg (by push_neg; exact ⟨hne '\t' (by decide), hne '\r' (by decide), hne ' ' (by decide)⟩),
    if_neg (hne '"' (by decide)),
    if_neg (by rw [is_alpha_isDigit_false c hc]; exact Bool.false_ne_true),
    if_pos hc]

/-- When the scanner is already at the end of the input the main loop
stops immediately, whatever fuel remains. -/
theorem scanTokensLoop_at_end (pn : String → Option α) (fuel : Nat)
    (st : Scanner α) (h : st.is_at_end = true) :
    scanTokensLoop pn fuel st = .ok st := by
  cases fuel <;> simp [scanTokensLoop, h]

/-- Scanning a standalone identifier-shaped lexeme produces exactly one
token — the keyword-table lookup result, falling back to `Identifer` —
followed by EOF. -/
theorem scan_tokens_identifier (pn : String → Option α) (src : List Char) (fuel : Nat)
    (h : identShaped src = true) (hf : src.length + 2 ≤ fuel) :
    scan_tokens pn fuel src =
      .ok [⟨(alistLookup (String.mk src) KEYWORDS).getD (.identifer (String.mk src)), 0⟩,
           ⟨.eof, 0⟩] := by
  obtain ⟨F, rfl⟩ : ∃ F, fuel = F + 1 := ⟨fuel - 1, by omega⟩
  match src, h with
  | c :: rest, h =>
    simp only [identShaped, Bool.and_eq_true] at h
    obtain ⟨hc, hrest⟩ := h
    have hall : ∀ d ∈ c :: rest, is_alphanumeric d = true := by
      intro d hd
      rcases List.mem_cons.mp hd with rfl | hd
      · exact is_alpha_imp_alphanumeric d hc
      · exact List.all_eq_true.mp hrest d hd
    have hascii : asciiOnly (c :: rest) = true := by
      simp only [asciiOnly, List.all_eq_true, decide_eq_true_eq]
      intro d hd
      exact is_alphanumeric_toNat_lt d (hall d hd)
    have hsb : strBytes (c :: rest) = (c :: rest).length := strBytes_of_ascii _ hascii
    have hstart : Scanner.is_at_end (Scanner.new (c :: rest) : Scanner α) = false := by
      simp only [Scanner.is_at_end, Scanner.new, hsb, List.length_cons, decide_eq_false_iff_not]
      omega
    have hp0 : (c :: rest).get? 0 = some c := rfl
    have hdisp := scanToken_alpha_dispatch pn F (Scanner.new (c :: rest)) c hp0 hc
    have hloop := identLoop_consumes F
      ({ Scanner.new (c :: rest) with current := 0 + 1 } : Scanner α)
      (by
        intro d hd
        apply hall
        exact List.drop_subset 1 _ hd)
      (by show 0 + 1 ≤ (c :: rest).length; simp)
      (by
        show (c :: rest).length - (0 + 1) < F
        simp only [List.length_cons] at hf ⊢
        omega)
    have hslice : byteSliceE (c :: rest) 0 (c :: rest).length =
        .ok (c :: rest) := by
      rw [byteSliceE_of_ascii _ hascii 0 _ (Nat.zero_le _) (le_refl _)]
      simp
    have hident : handleIdentifier F ({ (Scanner.new (c :: rest) : Scanner α) with
          current := (Scanner.new (c :: rest) : Scanner α).current + 1 } : Scanner α) =
        .ok ({ (Scanner.new (c :: rest) : Scanner α) with
                current := (c :: rest).length,
                tokens := [⟨(alistLookup (String.mk (c :: rest)) KEYWORDS).getD
                  (.identifer (String.mk (c :: rest))), 0⟩] } : Scanner α) := by
      have hloop := identLoop_consumes F
        ({ (Scanner.new (c :: rest) : Scanner α) with
            current := (Scanner.new (c :: rest) : Scanner α).current + 1 } : Scanner α)
        (by
          intro d hd
          apply hall
          exact List.drop_subset 1 _ hd)
        (by show 0 + 1 ≤ (c :: rest).length; simp)
        (by
          show (c :: rest).length - (0 + 1) < F
          simp only [List.length_cons] at hf ⊢
          omega)
      simp only [handleIdentifier, hloop, bind, Except.bind]
      have hslice' : byteSliceE (c :: rest) 0 ((c :: rest).length) = .ok (c :: rest) := hslice
      simp only [Scanner.new, hslice']
      rfl
    have hend : Scanner.is_at_end ({ (Scanner.new (c :: rest) : Scanner α) with
        current := (c :: rest).length,
        tokens := [⟨(alistLookup (String.mk (c :: rest)) KEYWORDS).getD
          (.identifer (String.mk (c :: rest))), 0⟩] } : Scanner α) = true := by
      simp [Scanner.is_at_end, Scanner.new, hsb]
    simp only [scan_tokens, scanTokensLoop, hstart, Bool.false_eq_true, if_false, bind,
      Except.bind]
    have hupd : ({ Scanner.new (c :: rest) with start := (Scanner.new (c :: rest) : Scanner α).current } : Scanner α) =
        Scanner.new (c :: rest) := rfl
    rw [hupd, hdisp, hident]
    simp only [scanTokensLoop_at_end pn F _ hend]
    rfl

/-- C7 counterexample: the claim includes `and` in the keyword list, but
the scanner's `KEYWORDS` table does not contain it (nor `class`/`else`), so
the standalone lexeme `and` is scanned as an `Identifer` token, not as the
`And` keyword token. -/
theorem c7_keyword_and_counterexample :
    scan_tokens (fun _ => none : String → Option Int) 10 ['a', 'n', 'd'] =
      .ok [⟨.identifer "and", 0⟩, ⟨.eof, 0⟩] ∧
    (TokenType.identifer "and" : TokenType Int) ≠ TokenType.and :=
  ⟨rfl, by decide⟩

/-- C7 (amended): the scanner's keyword table contains exactly
`for, fun, if, or, nil, print, return, super, this, true, false, var,
while`; each of those words scanned standalone produces its keyword token,
while `and`, `class`, `else` and every other identifier-shaped lexeme
produce an `Identifer` token (in general, the token is the `KEYWORDS`
lookup with `Identifer` fallback). -/
theorem c7_amended_keyword_table :
    (∀ (α : Type) (pn : String → Option α) (src : List Char) (fuel : Nat),
      identShaped src = true → src.length + 2 ≤ fuel →
      scan_tokens pn fuel src =
        .ok [⟨(alistLookup (String.mk src) KEYWORDS).getD (.identifer (String.mk src)), 0⟩,
             ⟨.eof, 0⟩]) ∧
    (scan_tokens (fun _ => none : String → Option Int) 10 "for".data = .ok [⟨.for_, 0⟩, ⟨.eof, 0⟩] ∧
     scan_tokens (fun _ => none : String → Option Int) 10 "fun".data = .ok [⟨.fun_, 0⟩, ⟨.eof, 0⟩] ∧
     scan_tokens (fun _ => none : String → Option Int) 10 "if".data = .ok [⟨.if_, 0⟩, ⟨.eof, 0⟩] ∧
     scan_tokens (fun _ => none : String → Option Int) 10 "or".data = .ok [⟨.or, 0⟩, ⟨.eof, 0⟩] ∧
     scan_tokens (fun _ => none : String → Option Int) 10 "nil".data = .ok [⟨.nil, 0⟩, ⟨.eof, 0⟩] ∧
     scan_tokens (fun _ => none : String → Option Int) 10 "print".data = .ok [⟨.print, 0⟩, ⟨.eof, 0⟩] ∧
     scan_tokens (fun _ => none : String → Option Int) 10 "return".data = .ok [⟨.return_, 0⟩, ⟨.eof, 0⟩] ∧
     scan_tokens (fun _ => none : String → Option Int) 10 "super".data = .ok [⟨.super_, 0⟩, ⟨.eof, 0⟩] ∧
     scan_tokens (fun _ => none : String → Option Int) 10 "this".data = .ok [⟨.this_, 0⟩, ⟨.eof, 0⟩] ∧
     scan_tokens (fun _ => none : String → Option Int) 10 "true".data = .ok [⟨.true_, 0⟩, ⟨.eof, 0⟩] ∧
     scan_tokens (fun _ => none : String → Option Int) 10 "false".data = .ok [⟨.false_, 0⟩, ⟨.eof, 0⟩] ∧
     scan_tokens (fun _ => none : String → Option Int) 10 "var".data = .ok [⟨.var, 0⟩, ⟨.eof, 0⟩] ∧
     scan_tokens (fun _ => none : String → Option Int) 10 "while".data = .ok [⟨.while_, 0⟩, ⟨.eof, 0⟩]) ∧
    (scan_tokens (fun _ => none : String → Option Int) 10 "and".data = .ok [⟨.identifer "and", 0⟩, ⟨.eof, 0⟩] ∧
     scan_tokens (fun _ => none : String → Option Int) 10 "class".data = .ok [⟨.identifer "class", 0⟩, ⟨.eof, 0⟩] ∧
     scan_tokens (fun _ => none : String → Option Int) 10 "else".data = .ok [⟨.identifer "else", 0⟩, ⟨.eof, 0⟩]) :=
  ⟨fun α => scan_tokens_identifier (α := α),
   ⟨rfl, rfl, rfl, rfl, rfl, rfl, rfl, rfl, rfl, rfl, rfl, rfl, rfl⟩,
   ⟨rfl, rfl, rfl⟩⟩

/-- Witness for C7 at the identifier-shaped lexeme `x`. -/
theorem c7_amended_keyword_table_witness :
    identShaped ['x'] = true ∧ (['x'] : List Char).length + 2 ≤ 10 ∧
    scan_tokens (fun _ => none : String → Option Int) 10 ['x'] =
      .ok [⟨.identifer "x", 0⟩, ⟨.eof, 0⟩] :=
  ⟨by decide, by decide,
   c7_amended_keyword_table.1 Int (fun _ => none) ['x'] 10 (by decide) (by decide)⟩

/-- On ASCII input, `is_at_end = false` means the cursor is a valid index. -/
theorem not_at_end_lt (st : Scanner α) (hascii : asciiOnly st.source = true)
    (he : st.is_at_end = false) : st.current < st.source.length := by
  simp only [Scanner.is_at_end, decide_eq_false_iff_not, Nat.not_le] at he
  rwa [strBytes_of_ascii _ hascii] at he

/-- `match_char` never panics on ASCII input, and moves the cursor at most
one valid position. -/
theorem match_char_ascii (st : Scanner α) (c : Char)
    (hascii : asciiOnly st.source = true) (hb : st.current ≤ st.source.length) :
    ∃ m st', st.match_char c = .ok (m, st') ∧ st'.source = st.source ∧
      st'.start = st.start ∧ st'.current ≤ st.source.length := by
  unfold Scanner.match_char
  by_cases he : st.is_at_end = true
  · exact ⟨false, st, by simp [he], rfl, rfl, hb⟩
  · have hlt : st.current < st.source.length :=
      not_at_end_lt st hascii (Bool.eq_false_iff.mpr he)
    have hsome : st.source.get? st.current = some (st.source.get ⟨st.current, hlt⟩) :=
      List.get?_eq_get hlt
    rw [Bool.eq_false_iff.mpr he]
    simp only [Bool.false_eq_true, if_false, hsome]
    by_cases hc : st.source.get ⟨st.current, hlt⟩ ≠ c
    · rw [List.get_eq_getElem] at hc
      exact ⟨false, st, by simp [hc], rfl, rfl, hb⟩
    · rw [List.get_eq_getElem] at hc
      push_neg at hc
      refine ⟨true, { st with current := st.current + 1 }, by simp [hc], rfl, rfl, ?_⟩
      show st.current + 1 ≤ st.source.length
      omega

/-- The line-comment loop never panics and preserves the scanner bounds. -/
theorem lineCommentLoop_good (fuel : Nat) : ∀ (st : Scanner α),
    st.current ≤ st.source.length →
    lineCommentLoop fuel st = .error .fuelOut ∨
    ∃ st', lineCommentLoop fuel st = .ok st' ∧ st'.source = st.source ∧
      st'.start = st.start ∧ st'.current ≤ st.source.length := by
  induction fuel with
  | zero => intro st hb; exact Or.inl rfl
  | succ f ih =>
    intro st hb
    match hp : st.peek with
    | none => exact Or.inr ⟨st, by simp [lineCommentLoop, hp], rfl, rfl, hb⟩
    | some c =>
      by_cases hc : c = '\n'
      · subst hc
        exact Or.inr ⟨st, by simp [lineCommentLoop, hp], rfl, rfl, hb⟩
      · have hlt : st.current < st.source.length := by
          rcases List.get?_eq_some.mp hp with ⟨hl, _⟩
          exact hl
        have hadv : Scanner.advance st = .ok (c, { st with current := st.current + 1 }) := by
          unfold Scanner.advance
          rw [show st.source.get? st.current = some c from hp]
        have := ih { st with current := st.current + 1 }
          (by show st.current + 1 ≤ st.source.length; omega)
        rcases this with hfo | ⟨st', hok, h1, h2, h3⟩
        · left
          simp only [lineCommentLoop, hp, hc, if_false, hadv, bind, Except.bind]
          exact hfo
        · right
          refine ⟨st', ?_, h1, h2, h3⟩
          simp only [lineCommentLoop, hp, hc, if_false, hadv, bind, Except.bind]
          exact hok

/-- The digit-run loop never panics and preserves the scanner bounds. -/
theorem takeNumbersLoop_good (fuel : Nat) : ∀ (st : Scanner α),
    st.current ≤ st.source.length →
    takeNumbersLoop fuel st = .error .fuelOut ∨
    ∃ st', takeNumbersLoop fuel st = .ok st' ∧ st'.source = st.source ∧
      st'.start = st.start ∧ st.current ≤ st'.current ∧ st'.current ≤ st.source.length := by
  induction fuel with
  | zero => intro st hb; exact Or.inl rfl
  | succ f ih =>
    intro st hb
    match hp : st.peek with
    | none => exact Or.inr ⟨st, by simp [takeNumbersLoop, hp], rfl, rfl, le_refl _, hb⟩
    | some c =>
      by_cases hc : c.isDigit = true
      · have hadv : Scanner.advance st = .ok (c, { st with current := st.current + 1 }) := by
          unfold Scanner.advance
          rw [show st.source.get? st.current = some c from hp]
        have := ih { st with current := st.current + 1 }
          (by
            show st.current + 1 ≤ st.source.length
            rcases List.get?_eq_some.mp hp with ⟨hl, _⟩
            omega)
        rcases this with hfo | ⟨st', hok, h1, h2, h3, h4⟩
        · left
          simp only [takeNumbersLoop, hp, hc, if_true, hadv, bind, Except.bind]
          exact hfo
        · right
          refine ⟨st', ?_, h1, h2, ?_, h4⟩
          · simp only [takeNumbersLoop, hp, hc, if_true, hadv, bind, Except.bind]
            exact hok
          · have : st.current + 1 ≤ st'.current := h3
            omega
      · right
        refine ⟨st, ?_, rfl, rfl, le_refl _, hb⟩
        simp [takeNumbersLoop, hp, hc]

/-- The identifier loop never panics and preserves the scanner bounds. -/
theorem identLoop_good (fuel : Nat) : ∀ (st : Scanner α),
    st.current ≤ st.source.length →
    identLoop fuel st = .error .fuelOut ∨
    ∃ st', identLoop fuel st = .ok st' ∧ st'.source = st.source ∧
      st'.start = st.start ∧ st.current ≤ st'.current ∧ st'.current ≤ st.source.length := by
  induction fuel with
  | zero => intro st hb; exact Or.inl rfl
  | succ f ih =>
    intro st hb
    match hp : st.peek with
    | none => exact Or.inr ⟨st, by simp [identLoop, hp], rfl, rfl, le_refl _, hb⟩
    | some c =>
      by_cases hc : is_alphanumeric c = true
      · have hadv : Scanner.advance st = .ok (c, { st with current := st.current + 1 }) := by
          unfold Scanner.advance
          rw [show st.source.get? st.current = some c from hp]
        have := ih { st with current := st.current + 1 }
          (by
            show st.current + 1 ≤ st.source.length
            rcases List.get?_eq_some.mp hp with ⟨hl, _⟩
            omega)
        rcases this with hfo | ⟨st', hok, h1, h2, h3, h4⟩
        · left
          simp only [identLoop, hp, hc, if_true, hadv, bind, Except.bind]
          exact hfo
        · right
          refine ⟨st', ?_, h1, h2, ?_, h4⟩
          · simp only [identLoop, hp, hc, if_true, hadv, bind, Except.bind]
            exact hok
          · have : st.current + 1 ≤ st'.current := h3
            omega
      · right
        refine ⟨st, ?_, rfl, rfl, le_refl _, hb⟩
        simp [identLoop, hp, hc]

/-- The string-literal loop never panics, preserves the scanner bounds,
and only moves the cursor forward. -/
theorem handleStringLoop_good (fuel : Nat) : ∀ (st : Scanner α),
    st.current ≤ st.source.length →
    handleStringLoop fuel st = .error .fuelOut ∨
    ∃ st', handleStringLoop fuel st = .ok st' ∧ st'.source = st.source ∧
      st'.start = st.start ∧ st.current ≤ st'.current ∧ st'.current ≤ st.source.length := by
  induction fuel with
  | zero => intro st hb; exact Or.inl rfl
  | succ f ih =>
    intro st hb
    match hp : st.peek with
    | none => exact Or.inr ⟨st, by simp [handleStringLoop, hp], rfl, rfl, le_refl _, hb⟩
    | some c =>
      by_cases hq : c = '"'
      · subst hq
        exact Or.inr ⟨st, by simp [handleStringLoop, hp], rfl, rfl, le_refl _, hb⟩
      · by_cases hn : c = '\n'
        · subst hn
          have := ih { st with line := st.line + 1 } hb
          rcases this with hfo | ⟨st', hok, h1, h2, h3, h4⟩
          · left
            simp only [handleStringLoop, hp, hq, if_false]
            simp only [reduceCtorEq, reduceIte, Char.reduceEq]
            exact hfo
          · right
            refine ⟨st', ?_, h1, h2, h3, h4⟩
            simp only [handleStringLoop, hp, hq, if_false]
            simp only [reduceCtorEq, reduceIte, Char.reduceEq]
            exact hok
        · have hadv : Scanner.advance st = .ok (c, { st with current := st.current + 1 }) := by
            unfold Scanner.advance
            rw [show st.source.get? st.current = some c from hp]
          have := ih { st with current := st.current + 1 }
            (by
              show st.current + 1 ≤ st.source.length
              rcases List.get?_eq_some.mp hp with ⟨hl, _⟩
              omega)
          rcases this with hfo | ⟨st', hok, h1, h2, h3, h4⟩
          · left
            simp only [handleStringLoop, hp, hq, hn, if_false, hadv, bind, Except.bind]
            exact hfo
          · right
            refine ⟨st', ?_, h1, h2, ?_, h4⟩
            · simp only [handleStringLoop, hp, hq, hn, if_false, hadv, bind, Except.bind]
              exact hok
            · have : st.current + 1 ≤ st'.current := h3
              omega

/-- The block-comment loop (including nested comments) never panics and
preserves the scanner bounds. -/
theorem blockCommentLoop_good (fuel : Nat) : ∀ (st : Scanner α),
    st.current ≤ st.source.length →
    blockCommentLoop fuel st = .error .fuelOut ∨
    ∃ st', blockCommentLoop fuel st = .ok st' ∧ st'.source = st.source ∧
      st'.start = st.start ∧ st'.current ≤ st.source.length := by
  induction fuel with
  | zero => intro st hb; exact Or.inl rfl
  | succ f ih =>
    intro st hb
    match hp : st.peek with
    | none => exact Or.inr ⟨st, by simp [blockCommentLoop, hp], rfl, rfl, hb⟩
    | some c =>
      have hlt : st.current < st.source.length := by
        rcases List.get?_eq_some.mp hp with ⟨hl, _⟩
        exact hl
      have hadv : Scanner.advance st = .ok (c, { st with current := st.current + 1 }) := by
        unfold Scanner.advance
        rw [show st.source.get? st.current = some c from hp]
      by_cases h1 : c = '*' ∧ st.peek_next = some '/'
      · have hlt2 : st.current + 1 < st.source.length := by
          rcases List.get?_eq_some.mp h1.2 with ⟨hl, _⟩
          exact hl
        have hadv2 : Scanner.advance { st with current := st.current + 1 } =
            .ok ('/', { st with current := st.current + 1 + 1 }) := by
          unfold Scanner.advance
          rw [show ({ st with current := st.current + 1 } : Scanner α).source.get?
            ({ st with current := st.current + 1 } : Scanner α).current = some '/' from h1.2]
        right
        refine ⟨{ st with current := st.current + 1 + 1 }, ?_, rfl, rfl, ?_⟩
        · simp only [blockCommentLoop, hp]
          rw [if_pos h1]
          simp only [hadv, hadv2, bind, Except.bind]
        · show st.current + 1 + 1 ≤ st.source.length
          omega
      · by_cases h2 : c = '/' ∧ st.peek_next = some '*'
        · have hlt2 : st.current + 1 < st.source.length := by
            rcases List.get?_eq_some.mp h2.2 with ⟨hl, _⟩
            exact hl
          have hadv2 : Scanner.advance { st with current := st.current + 1 } =
              .ok ('*', { st with current := st.current + 1 + 1 }) := by
            unfold Scanner.advance
            rw [show ({ st with current := st.current + 1 } : Scanner α).source.get?
              ({ st with current := st.current + 1 } : Scanner α).current = some '*' from h2.2]
          have hred : blockCommentLoop (f + 1) st =
              Except.bind (blockCommentLoop f { st with current := st.current + 1 + 1 })
                (fun st => blockCommentLoop f st) := by
            simp only [blockCommentLoop, hp]
            rw [if_neg h1, if_pos h2]
            simp only [hadv, hadv2, bind, Except.bind]
          have hrec1 := ih { st with current := st.current + 1 + 1 }
            (by show st.current + 1 + 1 ≤ st.source.length; omega)
          rcases hrec1 with hfo | ⟨st', hok, hs1, hs2, hs3⟩
          · left
            rw [hred, hfo]
            rfl
          · have hs3' : st'.current ≤ st'.source.length := by
              rw [hs1]
              exact hs3
            have hrec2 := ih st' hs3'
            rcases hrec2 with hfo2 | ⟨st'', hok2, ht1, ht2, ht3⟩
            · left
              rw [hred, hok]
              simpa using hfo2
            · right
              refine ⟨st'', ?_, by rw [ht1, hs1], by rw [ht2, hs2],
                by rw [hs1] at ht3; exact ht3⟩
              rw [hred, hok]
              simpa using hok2
        · by_cases h3 : c = '\n'
          · subst h3
            have hadv' : Scanner.advance { st with line := st.line + 1 } =
                .ok ('\n', { st with line := st.line + 1, current := st.current + 1 }) := by
              unfold Scanner.advance
              rw [show ({ st with line := st.line + 1 } : Scanner α).source.get?
                ({ st with line := st.line + 1 } : Scanner α).current = some '\n' from hp]
            have hred : blockCommentLoop (f + 1) st =
                blockCommentLoop f { st with line := st.line + 1, current := st.current + 1 } := by
              simp only [blockCommentLoop, hp]
              rw [if_neg h1, if_neg h2]
              simp only [reduceCtorEq, reduceIte, Char.reduceEq, if_true]
              simp only [hadv', bind, Except.bind]
            have := ih { st with line := st.line + 1, current := st.current + 1 }
              (by show st.current + 1 ≤ st.source.length; omega)
            rcases this with hfo | ⟨st', hok, hs1, hs2, hs3⟩
            · left
              rw [hred, hfo]
            · right
              exact ⟨st', by rw [hred, hok], hs1, hs2, hs3⟩
          · have hred : blockCommentLoop (f + 1) st =
                blockCommentLoop f { st with current := st.current + 1 } := by
              simp only [blockCommentLoop, hp]
              rw [if_neg h1, if_neg h2, if_neg h3]
              simp only [hadv, bind, Except.bind]
            have := ih { st with current := st.current + 1 }
              (by show st.current + 1 ≤ st.source.length; omega)
            rcases this with hfo | ⟨st', hok, hs1, hs2, hs3⟩
            · left
              rw [hred, hfo]
            · right
              exact ⟨st', by rw [hred, hok], hs1, hs2, hs3⟩

/-- `handle_string` never panics on ASCII input when the cursor sits just
past the opening quote. -/
theorem handleString_good (fuel : Nat) (st : Scanner α)
    (hascii : asciiOnly st.source = true) (hstart : st.start + 1 ≤ st.current)
    (hb : st.current ≤ st.source.length) :
    handleString fuel st = .error .fuelOut ∨
    ∃ st', handleString fuel st = .ok st' ∧ st'.source = st.source ∧
      st'.current ≤ st.source.length := by
  rcases handleStringLoop_good fuel st hb with hfo | ⟨st1, hok, hs1, hs2, hs3, hs4⟩
  · left
    simp only [handleString, hfo, bind, Except.bind]
  · by_cases he : st1.is_at_end = true
    · right
      refine ⟨st1.report "Unterminated string", ?_, hs1, hs4⟩
      simp only [handleString, hok, bind, Except.bind, he, if_true]
    · have hascii1 : asciiOnly st1.source = true := by rw [hs1]; exact hascii
      have hlt : st1.current < st1.source.length :=
        not_at_end_lt st1 hascii1 (Bool.eq_false_iff.mpr he)
      have hadv : Scanner.advance st1 =
          .ok (st1.source.get ⟨st1.current, hlt⟩, { st1 with current := st1.current + 1 }) := by
        unfold Scanner.advance
        rw [List.get?_eq_get hlt]
      have hslice : byteSliceE st1.source (st1.start + 1) (st1.current + 1 - 1) =
          .ok ((st1.source.take (st1.current + 1 - 1)).drop (st1.start + 1)) := by
        apply byteSliceE_of_ascii _ hascii1
        · omega
        · rw [hs1]
          omega
      right
      refine ⟨Scanner.add_token { st1 with current := st1.current + 1 }
          (.string (String.mk ((st1.source.take (st1.current + 1 - 1)).drop (st1.start + 1)))),
        ?_, ?_, ?_⟩
      · simp only [handleString, hok, bind, Except.bind, he, Bool.false_eq_true, if_false,
          hadv, hslice]
      · show st1.source = st.source
        exact hs1
      · show st1.current + 1 ≤ st.source.length
        rw [hs1] at hlt
        omega


/-- `handle_identifier` never panics on ASCII input. -/
theorem handleIdentifier_good (fuel : Nat) (st : Scanner α)
    (hascii : asciiOnly st.source = true) (hstart : st.start ≤ st.current)
    (hb : st.current ≤ st.source.length) :
    handleIdentifier fuel st = .error .fuelOut ∨
    ∃ st', handleIdentifier fuel st = .ok st' ∧ st'.source = st.source ∧
      st'.current ≤ st.source.length := by
  rcases identLoop_good fuel st hb with hfo | ⟨st1, hok, hs1, hs2, hs3, hs4⟩
  · left
    simp only [handleIdentifier, hfo, bind, Except.bind]
  · have hslice : byteSliceE st1.source st1.start st1.current =
        .ok ((st1.source.take st1.current).drop st1.start) := by
      apply byteSliceE_of_ascii _ (by rw [hs1]; exact hascii)
      · omega
      · rw [hs1]
        exact hs4
    right
    refine ⟨Scanner.add_token st1
        ((alistLookup (String.mk ((st1.source.take st1.current).drop st1.start)) KEYWORDS).getD
          (.identifer (String.mk ((st1.source.take st1.current).drop st1.start)))),
      ?_, ?_, ?_⟩
    · simp only [handleIdentifier, hok, bind, Except.bind, hslice]
    · show st1.source = st.source
      exact hs1
    · show st1.current ≤ st.source.length
      exact hs4

/-- `handle_number` never panics on ASCII input. -/
theorem handleNumber_good (pn : String → Option α) (fuel : Nat) (st : Scanner α)
    (hascii : asciiOnly st.source = true) (hstart : st.start ≤ st.current)
    (hb : st.current ≤ st.source.length) :
    handleNumber pn fuel st = .error .fuelOut ∨
    ∃ st', handleNumber pn fuel st = .ok st' ∧ st'.source = st.source ∧
      st'.current ≤ st.source.length := by
  rcases takeNumbersLoop_good fuel st hb with hfo | ⟨st1, hok, hs1, hs2, hs3, hs4⟩
  · left
    simp only [handleNumber, hfo, bind, Except.bind]
  · have hend : ∀ (st2 : Scanner α), st2.source = st.source → st2.start = st.start →
        st.current ≤ st2.current → st2.current ≤ st.source.length →
        pn (String.mk ((st2.source.take st2.current).drop st2.start)) =
          pn (String.mk ((st2.source.take st2.current).drop st2.start)) →
        (match pn (String.mk ((st2.source.take st2.current).drop st2.start)) with
          | some n => (Except.ok (st2.add_token (.number n)) : Except ScanStop (Scanner α))
          | none => Except.ok st2) = .error .fuelOut ∨
        ∃ st', (match pn (String.mk ((st2.source.take st2.current).drop st2.start)) with
          | some n => (Except.ok (st2.add_token (.number n)) : Except ScanStop (Scanner α))
          | none => Except.ok st2) = .ok st' ∧ st'.source = st.source ∧
          st'.current ≤ st.source.length := by
      intro st2 h1 h2 h3 h4 _
      match pn (String.mk ((st2.source.take st2.current).drop st2.start)) with
      | some n => exact Or.inr ⟨st2.add_token (.number n), rfl, h1, h4⟩
      | none => exact Or.inr ⟨st2, rfl, h1, h4⟩
    match hp1 : st1.peek, hp2 : st1.peek_next with
    | some c1, some c2 =>
      by_cases hdot : c1 = '.' ∧ c2.isDigit = true
      · have hlt1 : st1.current < st1.source.length := by
          rcases List.get?_eq_some.mp hp1 with ⟨hl, _⟩
          exact hl
        have hadv : Scanner.advance st1 = .ok (c1, { st1 with current := st1.current + 1 }) := by
          unfold Scanner.advance
          rw [show st1.source.get? st1.current = some c1 from hp1]
        rcases takeNumbersLoop_good fuel ({ st1 with current := st1.current + 1 } : Scanner α)
            (by show st1.current + 1 ≤ st1.source.length; omega) with hfo2 | ⟨st2, hok2, ht1, ht2, ht3, ht4⟩
        · left
          simp only [handleNumber, hok, bind, Except.bind, hp1, hp2]
          rw [if_pos hdot]
          simp only [hadv, bind, Except.bind, hfo2]
        · have hq1 : st2.source = st.source := by
            rw [ht1]
            show st1.source = st.source
            exact hs1
          have hq2 : st2.start = st.start := by
            rw [ht2]
            show st1.start = st.start
            exact hs2
          have hq3 : st.current ≤ st2.current := by
            have : st1.current + 1 ≤ st2.current := ht3
            omega
          have hq4 : st2.current ≤ st.source.length := by
            have : st2.current ≤ st1.source.length := ht4
            rw [hs1] at this
            exact this
          have hslice : byteSliceE st2.source st2.start st2.current =
              .ok ((st2.source.take st2.current).drop st2.start) := by
            apply byteSliceE_of_ascii _ (by rw [hq1]; exact hascii)
            · omega
            · rw [hq1]
              exact hq4
          have := hend st2 hq1 hq2 hq3 hq4 rfl
          rcases this with hbad | ⟨st', hok', hr1, hr2⟩
          · left
            simp only [handleNumber, hok, bind, Except.bind, hp1, hp2]
            rw [if_pos hdot]
            simp only [hadv, bind, Except.bind, hok2, hslice]
            exact hbad
          · right
            refine ⟨st', ?_, hr1, hr2⟩
            simp only [handleNumber, hok, bind, Except.bind, hp1, hp2]
            rw [if_pos hdot]
            simp only [hadv, bind, Except.bind, hok2, hslice]
            exact hok'
      · have hslice : byteSliceE st1.source st1.start st1.current =
            .ok ((st1.source.take st1.current).drop st1.start) := by
          apply byteSliceE_of_ascii _ (by rw [hs1]; exact hascii)
          · omega
          · rw [hs1]
            exact hs4
        have := hend st1 hs1 hs2 hs3 hs4 rfl
        rcases this with hbad | ⟨st', hok', hr1, hr2⟩
        · left
          simp only [handleNumber, hok, bind, Except.bind, hp1, hp2]
          rw [if_neg hdot]
          simp only [hslice]
          exact hbad
        · right
          refine ⟨st', ?_, hr1, hr2⟩
          simp only [handleNumber, hok, bind, Except.bind, hp1, hp2]
          rw [if_neg hdot]
          simp only [hslice]
          exact hok'
    | some c1, none =>
      have hslice : byteSliceE st1.source st1.start st1.current =
          .ok ((st1.source.take st1.current).drop st1.start) := by
        apply byteSliceE_of_ascii _ (by rw [hs1]; exact hascii)
        · omega
        · rw [hs1]
          exact hs4
      have := hend st1 hs1 hs2 hs3 hs4 rfl
      rcases this with hbad | ⟨st', hok', hr1, hr2⟩
      · left
        simp only [handleNumber, hok, bind, Except.bind, hp1, hp2, hslice]
        exact hbad
      · right
        refine ⟨st', ?_, hr1, hr2⟩
        simp only [handleNumber, hok, bind, Except.bind, hp1, hp2, hslice]
        exact hok'
    | none, hp2q =>
      have hslice : byteSliceE st1.source st1.start st1.current =
          .ok ((st1.source.take st1.current).drop st1.start) := by
        apply byteSliceE_of_ascii _ (by rw [hs1]; exact hascii)
        · omega
        · rw [hs1]
          exact hs4
      have := hend st1 hs1 hs2 hs3 hs4 rfl
      rcases this with hbad | ⟨st', hok', hr1, hr2⟩
      · left
        simp only [handleNumber, hok, bind, Except.bind, hp1, hslice]
        exact hbad
      · right
        refine ⟨st', ?_, hr1, hr2⟩
        simp only [handleNumber, hok, bind, Except.bind, hp1, hslice]
        exact hok'

set_option maxHeartbeats 3200000 in
/-- `scan_token` never panics on ASCII input when invoked as the main loop
does (cursor in bounds, `start` just reset to the cursor). -/
theorem scanToken_good (pn : String → Option α) (fuel : Nat) (st : Scanner α)
    (hascii : asciiOnly st.source = true) (hstart : st.start = st.current)
    (hlt : st.current < st.source.length) :
    scanGood st (scanToken pn fuel st) := by
  obtain ⟨c, hsome⟩ : ∃ c, st.source.get? st.current = some c := ⟨_, List.get?_eq_get hlt⟩
  have hadv : st.advance = .ok (c, { st with current := st.current + 1 }) := by
    unfold Scanner.advance
    rw [hsome]
  have hb1 : st.current + 1 ≤ st.source.length := hlt
  have hascii1 : asciiOnly ({ st with current := st.current + 1 } : Scanner α).source = true :=
    hascii
  have hK : ∀ {β γ : Type} (x : β) (K : β → Except ScanStop γ),
      Bind.bind (Except.ok x) K = K x := fun x K => rfl
  unfold scanToken
  rw [hadv, hK]
  simp only []
  by_cases h1 : c = '('
  · rw [if_pos h1]
    exact Or.inr ⟨_, rfl, rfl, hb1⟩
  rw [if_neg h1]
  by_cases h2 : c = ')'
  · rw [if_pos h2]
    exact Or.inr ⟨_, rfl, rfl, hb1⟩
  rw [if_neg h2]
  by_cases h3 : c = '{'
  · rw [if_pos h3]
    exact Or.inr ⟨_, rfl, rfl, hb1⟩
  rw [if_neg h3]
  by_cases h4 : c = '}'
  · rw [if_pos h4]
    exact Or.inr ⟨_, rfl, rfl, hb1⟩
  rw [if_neg h4]
  by_cases h5 : c = ','
  · rw [if_pos h5]
    exact Or.inr ⟨_, rfl, rfl, hb1⟩
  rw [if_neg h5]
  by_cases h6 : c = '.'
  · rw [if_pos h6]
    exact Or.inr ⟨_, rfl, rfl, hb1⟩
  rw [if_neg h6]
  by_cases h7 : c = '-'
  · rw [if_pos h7]
    exact Or.inr ⟨_, rfl, rfl, hb1⟩
  rw [if_neg h7]
  by_cases h8 : c = '+'
  · rw [if_pos h8]
    exact Or.inr ⟨_, rfl, rfl, hb1⟩
  rw [if_neg h8]
  by_cases h9 : c = ';'
  · rw [if_pos h9]
    exact Or.inr ⟨_, rfl, rfl, hb1⟩
  rw [if_neg h9]
  by_cases h10 : c = '*'
  · rw [if_pos h10]
    exact Or.inr ⟨_, rfl, rfl, hb1⟩
  rw [if_neg h10]
  by_cases h11 : c = '?'
  · rw [if_pos h11]
    exact Or.inr ⟨_, rfl, rfl, hb1⟩
  rw [if_neg h11]
  by_cases h12 : c = ':'
  · rw [if_pos h12]
    exact Or.inr ⟨_, rfl, rfl, hb1⟩
  rw [if_neg h12]
  by_cases h13 : c = '!'
  · rw [if_pos h13]
    obtain ⟨m, st2, hmc, hq1, hq2, hq3⟩ :=
      match_char_ascii ({ st with current := st.current + 1 } : Scanner α) '=' hascii1 hb1
    rw [hmc, hK]
    simp only []
    exact Or.inr ⟨_, rfl, hq1, hq3⟩
  rw [if_neg h13]
  by_cases h14 : c = '='
  · rw [if_pos h14]
    obtain ⟨m, st2, hmc, hq1, hq2, hq3⟩ :=
      match_char_ascii ({ st with current := st.current + 1 } : Scanner α) '=' hascii1 hb1
    rw [hmc, hK]
    simp only []
    exact Or.inr ⟨_, rfl, hq1, hq3⟩
  rw [if_neg h14]
  by_cases h15 : c = '<'
  · rw [if_pos h15]
    obtain ⟨m, st2, hmc, hq1, hq2, hq3⟩ :=
      match_char_ascii ({ st with current := st.current + 1 } : Scanner α) '=' hascii1 hb1
    rw [hmc, hK]
    simp only []
    exact Or.inr ⟨_, rfl, hq1, hq3⟩
  rw [if_neg h15]
  by_cases h16 : c = '>'
  · rw [if_pos h16]
    obtain ⟨m, st2, hmc, hq1, hq2, hq3⟩ :=
      match_char_ascii ({ st with current := st.current + 1 } : Scanner α) '=' hascii1 hb1
    rw [hmc, hK]
    simp only []
    exact Or.inr ⟨_, rfl, hq1, hq3⟩
  rw [if_neg h16]
  by_cases h17 : c = '/'
  · rw [if_pos h17]
    obtain ⟨m, st2, hmc, hq1, hq2, hq3⟩ :=
      match_char_ascii ({ st with current := st.current + 1 } : Scanner α) '/' hascii1 hb1
    rw [hmc, hK]
    simp only []
    have hascii2 : asciiOnly st2.source = true := by rw [hq1]; exact hascii
    have hb2 : st2.current ≤ st2.source.length := by rw [hq1]; exact hq3
    cases m with
    | true =>
      rw [if_pos rfl]
      rcases lineCommentLoop_good fuel st2 hb2 with hfo | ⟨st3, hok3, hr1, hr2, hr3⟩
      · exact Or.inl hfo
      · refine Or.inr ⟨st3, hok3, ?_, ?_⟩
        · rw [hr1]
          exact hq1
        · rw [hq1] at hr3
          exact hr3
    | false =>
      rw [if_neg Bool.false_ne_true]
      obtain ⟨m2, st3, hmc2, hr1, hr2, hr3⟩ := match_char_ascii st2 '*' hascii2 hb2
      rw [hmc2, hK]
      simp only []
      have hascii3 : asciiOnly st3.source = true := by rw [hr1]; exact hascii2
      have hb3 : st3.current ≤ st3.source.length := by rw [hr1]; exact hr3
      cases m2 with
      | true =>
        rw [if_pos rfl]
        rcases blockCommentLoop_good fuel st3 hb3 with hfo | ⟨st4, hok4, hv1, hv2, hv3⟩
        · exact Or.inl hfo
        · refine Or.inr ⟨st4, hok4, ?_, ?_⟩
          · rw [hv1, hr1]
            exact hq1
          · rw [hr1, hq1] at hv3
            exact hv3
      | false =>
        rw [if_neg Bool.false_ne_true]
        refine Or.inr ⟨_, rfl, ?_, ?_⟩
        · show st3.source = st.source
          rw [hr1]
          exact hq1
        · show st3.current ≤ st.source.length
          rw [hr1, hq1] at hb3
          exact hb3
  rw [if_neg h17]
  by_cases h18 : c = '\n'
  · rw [if_pos h18]
    exact Or.inr ⟨_, rfl, rfl, hb1⟩
  rw [if_neg h18]
  by_cases h19 : c = '\t' ∨ c = '\r' ∨ c = ' '
  · rw [if_pos h19]
    exact Or.inr ⟨_, rfl, rfl, hb1⟩
  rw [if_neg h19]
  by_cases h20 : c = '"'
  · rw [if_pos h20]
    rcases handleString_good fuel ({ st with current := st.current + 1 } : Scanner α)
        hascii1 (by show st.start + 1 ≤ st.current + 1; omega) hb1 with
      hfo | ⟨st', hok, hr1, hr2⟩
    · exact Or.inl hfo
    · exact Or.inr ⟨st', hok, hr1, hr2⟩
  rw [if_neg h20]
  by_cases h21 : c.isDigit = true
  · rw [if_pos h21]
    rcases handleNumber_good pn fuel ({ st with current := st.current + 1 } : Scanner α)
        hascii1 (by show st.start ≤ st.current + 1; omega) hb1 with
      hfo | ⟨st', hok, hr1, hr2⟩
    · exact Or.inl hfo
    · exact Or.inr ⟨st', hok, hr1, hr2⟩
  rw [if_neg h21]
  by_cases h22 : is_alpha c = true
  · rw [if_pos h22]
    rcases handleIdentifier_good fuel ({ st with current := st.current + 1 } : Scanner α)
        hascii1 (by show st.start ≤ st.current + 1; omega) hb1 with
      hfo | ⟨st', hok, hr1, hr2⟩
    · exact Or.inl hfo
    · exact Or.inr ⟨st', hok, hr1, hr2⟩
  rw [if_neg h22]
  exact Or.inr ⟨_, rfl, rfl, hb1⟩

/-- The scanner's main loop never panics on ASCII input. -/
theorem scanTokensLoop_good (pn : String → Option α) (fuel : Nat) :
    ∀ (st : Scanner α), asciiOnly st.source = true → st.current ≤ st.source.length →
    scanTokensLoop pn fuel st = .error .fuelOut ∨
    ∃ st', scanTokensLoop pn fuel st = .ok st' := by
  induction fuel with
  | zero =>
    intro st hascii hb
    by_cases he : st.is_at_end = true
    · exact Or.inr ⟨st, by simp [scanTokensLoop, he]⟩
    · left
      simp [scanTokensLoop, he]
  | succ f ih =>
    intro st hascii hb
    by_cases he : st.is_at_end = true
    · exact Or.inr ⟨st, by simp [scanTokensLoop, he]⟩
    · have hlt : st.current < st.source.length :=
        not_at_end_lt st hascii (Bool.eq_false_iff.mpr he)
    
      have hgood := scanToken_good pn f ({ st with start := st.current } : Scanner α)
        hascii rfl hlt
      rcases hgood with hfo | ⟨st1, hok1, hs1, hs2⟩
      · left
        simp only [scanTokensLoop, he, Bool.false_eq_true, if_false, bind, Except.bind, hfo]
      · have := ih st1 (by rw [hs1]; exact hascii) (by rw [hs1]; exact hs2)
        rcases this with hfo2 | ⟨st2, hok2⟩
        · left
          simp only [scanTokensLoop, he, Bool.false_eq_true, if_false, bind, Except.bind,
            hok1, hfo2]
        · right
          refine ⟨st2, ?_⟩
          simp only [scanTokensLoop, he, Bool.false_eq_true, if_false, bind, Except.bind,
            hok1, hok2]

/-- C10: the scanner is panic-free exactly on single-byte (ASCII) inputs —
`is_at_end` compares the char-count cursor with the byte length while
`advance` indexes the char vector and the literal lexers slice by byte
offset, so all-ASCII input can never panic, while the one-character
non-ASCII input `é` makes `scan_tokens` panic (out-of-bounds index in
`advance`). -/
theorem c10_scanner_ascii_panic_free (α : Type) (pn : String → Option α)
    (fuel : Nat) (src : List Char) :
    (asciiOnly src = true → isCrash (scan_tokens pn fuel src) = false) ∧
    asciiOnly ['é'] = false ∧
    isCrash (scan_tokens (fun _ => none : String → Option Int) 5 ['é']) = true := by
  refine ⟨?_, by decide, by decide⟩
  intro hascii
  rcases scanTokensLoop_good pn fuel (Scanner.new src) hascii (by simp [Scanner.new])
    with hfo | ⟨st', hok⟩
  · simp [scan_tokens, hfo, bind, Except.bind, isCrash]
  · simp [scan_tokens, hok, bind, Except.bind, isCrash]

/-- Witness for C10 on the ASCII input `a+1`. -/
theorem c10_scanner_ascii_panic_free_witness :
    asciiOnly ['a', '+', '1'] = true ∧
    isCrash (scan_tokens (fun s => s.toInt?) 10 ['a', '+', '1']) = false :=
  ⟨by decide,
   (c10_scanner_ascii_panic_free Int (fun s => s.toInt?) 10 ['a', '+', '1']).1 (by decide)⟩
